import Mathlib

/-!
Verification development for the fits-rs FITS-header decoder.

The Rust sources are shallowly embedded: byte slices become `List Nat`
(each element one byte), Rust `&str` values are represented by the list
of their UTF-8 bytes, nom combinators become functions
`List Nat → Option (List Nat × α)` (`none` is a nom `Err`), Rust `Result`
becomes `Except`, a Rust panic becomes an `Option` failure or a dedicated
`Fatal` outcome, `i64`/`u16` become `Int`/`Nat` with explicit range checks
where the Rust integer parsers check ranges, and the `as usize` cast is an
explicit `% 2^64`.  `f64` values are modelled as exact rationals: the
IEEE-754 rounding performed by Rust `f64::from_str` is abstracted away
(every numeric fact proved below only involves values on which that
conversion is exact).
-/

namespace FitsRs

/-- UTF-8 bytes of an ASCII string literal (all literals used are ASCII,
where UTF-8 bytes and char codes coincide). -/
def asciiBytes (s : String) : List Nat := s.data.map Char.toNat

/-- src/lib.rs: KEYWORD_LINE_LENGTH. -/
def KEYWORD_LINE_LENGTH : Nat := 80

/-- src/lib.rs: FITS_BLOCK_SIZE = 36 * KEYWORD_LINE_LENGTH. -/
def FITS_BLOCK_SIZE : Nat := 36 * KEYWORD_LINE_LENGTH

/-- Is a byte a UTF-8 continuation byte (0x80-0xBF)? -/
def utf8Cont (c : Nat) : Bool := 128 ≤ c && c ≤ 191

/-- Validity check performed by Rust std::str::from_utf8.  All inputs the
grammar feeds through it are ASCII except the raw 8-byte keyword field. -/
def utf8Valid : List Nat → Bool
  | [] => true
  | c :: rest =>
    if c ≤ 127 then utf8Valid rest
    else if 194 ≤ c && c ≤ 223 then
      match rest with
      | c1 :: r => utf8Cont c1 && utf8Valid r
      | [] => false
    else if c = 224 then
      match rest with
      | c1 :: c2 :: r => (160 ≤ c1 && c1 ≤ 191) && utf8Cont c2 && utf8Valid r
      | _ => false
    else if (225 ≤ c && c ≤ 236) || c = 238 || c = 239 then
      match rest with
      | c1 :: c2 :: r => utf8Cont c1 && utf8Cont c2 && utf8Valid r
      | _ => false
    else if c = 237 then
      match rest with
      | c1 :: c2 :: r => (128 ≤ c1 && c1 ≤ 159) && utf8Cont c2 && utf8Valid r
      | _ => false
    else if c = 240 then
      match rest with
      | c1 :: c2 :: c3 :: r =>
        (144 ≤ c1 && c1 ≤ 191) && utf8Cont c2 && utf8Cont c3 && utf8Valid r
      | _ => false
    else if 241 ≤ c && c ≤ 243 then
      match rest with
      | c1 :: c2 :: c3 :: r =>
        utf8Cont c1 && utf8Cont c2 && utf8Cont c3 && utf8Valid r
      | _ => false
    else if c = 244 then
      match rest with
      | c1 :: c2 :: c3 :: r =>
        (128 ≤ c1 && c1 ≤ 143) && utf8Cont c2 && utf8Cont c3 && utf8Valid r
      | _ => false
    else false

/-- Bytes trimmed by Rust str::trim_end (ASCII whitespace; whitespace
characters outside ASCII are multi-byte sequences and are not modelled,
no claim involves them). -/
def is_rust_space (c : Nat) : Bool :=
  c = 9 || c = 10 || c = 11 || c = 12 || c = 13 || c = 32

/-- Rust str::trim_end on the UTF-8 byte representation. -/
def trim_end (l : List Nat) : List Nat :=
  ((l.reverse).dropWhile is_rust_space).reverse

/-! ## nom combinators (bytes-complete flavour) -/


/-- nom bytes::complete::tag. -/
def ptag (t : List Nat) (input : List Nat) : Option (List Nat × List Nat) :=
  if t.isPrefixOf input then some (input.drop t.length, t) else none

/-- nom bytes::complete::take. -/
def ptake (n : Nat) (input : List Nat) : Option (List Nat × List Nat) :=
  if n ≤ input.length then some (input.drop n, input.take n) else none

/-- nom bytes::complete::take_while (never fails). -/
def ptakeWhile (p : Nat → Bool) (input : List Nat) :
    Option (List Nat × List Nat) :=
  some (input.dropWhile p, input.takeWhile p)

/-- nom bytes::complete::take_while1. -/
def ptakeWhile1 (p : Nat → Bool) (input : List Nat) :
    Option (List Nat × List Nat) :=
  if (input.takeWhile p).isEmpty then none
  else some (input.dropWhile p, input.takeWhile p)

/-- nom combinator::opt. -/
def popt {α : Type} (p : List Nat → Option (List Nat × α)) (input : List Nat) :
    Option (List Nat × Option α) :=
  match p input with
  | some (r, a) => some (r, some a)
  | none => some (input, none)

/-- nom branch::alt with two alternatives (nested for more). -/
def palt {α : Type} (p q : List Nat → Option (List Nat × α)) (input : List Nat) :
    Option (List Nat × α) :=
  match p input with
  | some r => some r
  | none => q input

/-- nom sequence::tuple with two components (nested for more). -/
def pand {α β : Type} (p : List Nat → Option (List Nat × α))
    (q : List Nat → Option (List Nat × β)) (input : List Nat) :
    Option (List Nat × (α × β)) :=
  match p input with
  | some (r, a) =>
    match q r with
    | some (r2, b) => some (r2, (a, b))
    | none => none
  | none => none

/-- nom combinator::recognize: run a parser, return the consumed bytes. -/
def precognize {α : Type} (p : List Nat → Option (List Nat × α))
    (input : List Nat) : Option (List Nat × List Nat) :=
  match p input with
  | some (r, _) => some (r, input.take (input.length - r.length))
  | none => none

/-- nom character::complete::multispace0 (space, tab, CR, LF). -/
def multispace0 (input : List Nat) : Option (List Nat × List Nat) :=
  ptakeWhile (fun c => c = 32 || c = 9 || c = 10 || c = 13) input

/-- src/parser/util.rs ws: surround a parser with multispace0. -/
def ws {α : Type} (p : List Nat → Option (List Nat × α)) (input : List Nat) :
    Option (List Nat × α) :=
  match multispace0 input with
  | some (r, _) =>
    match p r with
    | some (r2, a) =>
      match multispace0 r2 with
      | some (r3, _) => some (r3, a)
      | none => none
    | none => none
  | none => none

/-- src/parser/util.rs exact_length: length_value(success(len),
terminated(inner, eof)) — run inner on exactly the next len bytes and
require it (with its own trailing parsers) to consume all of them. -/
def exact_length {α : Type} (len : Nat)
    (inner : List Nat → Option (List Nat × α)) (input : List Nat) :
    Option (List Nat × α) :=
  if len ≤ input.length then
    match inner (input.take len) with
    | some (rest, o) => if rest = [] then some (input.drop len, o) else none
    | none => none
  else none

/-- src/parser/util.rs pair_values: ( A , B ) with whitespace allowed
around the components. -/
def pair_values {α β : Type} (first : List Nat → Option (List Nat × α))
    (second : List Nat → Option (List Nat × β)) (input : List Nat) :
    Option (List Nat × (α × β)) :=
  match ptag (asciiBytes "(") input with
  | some (r1, _) =>
    match ws first r1 with
    | some (r2, a) =>
      match ptag (asciiBytes ",") r2 with
      | some (r3, _) =>
        match ws second r3 with
        | some (r4, b) =>
          match ptag (asciiBytes ")") r4 with
          | some (r5, _) => some (r5, (a, b))
          | none => none
        | none => none
      | none => none
    | none => none
  | none => none

/-! ## Rust integer string conversions -/


/-- Is a byte an ASCII digit (nom character::is_digit). -/
def is_digit (c : Nat) : Bool := 48 ≤ c && c ≤ 57

/-- Numeric value of a list of ASCII digit bytes. -/
def digitsVal (l : List Nat) : Nat := l.foldl (fun a d => a * 10 + (d - 48)) 0

/-- Rust u16::from_str: optional leading plus sign, one or more decimal
digits, value at most 65535. -/
def u16_from_str (l : List Nat) : Option Nat :=
  let ds := if l.head? = some 43 then l.tail else l
  if !ds.isEmpty && ds.all is_digit then
    if digitsVal ds ≤ 65535 then some (digitsVal ds) else none
  else none

/-- Rust i64::from_str: optional sign, one or more decimal digits, value
within the signed 64-bit range. -/
def i64_from_str (l : List Nat) : Option Int :=
  let (neg, ds) :=
    if l.head? = some 43 then (false, l.tail)
    else if l.head? = some 45 then (true, l.tail)
    else (false, l)
  if !ds.isEmpty && ds.all is_digit then
    let v : Int := if neg then -(digitsVal ds : Int) else (digitsVal ds : Int)
    if -(2 ^ 63) ≤ v ∧ v < 2 ^ 63 then some v else none
  else none

/-! ## src/types/keyword.rs -/


/-- The closed keyword identity (src/types/keyword.rs).  Indexed-family
indices are u16 values, carried as Nat; Unrecognized carries the trimmed
text (the Rust KeywordText stack buffer holds at most 8 bytes, which is
guaranteed for every input reaching it from the 8-byte keyword field, so
its assert is not modelled). -/
inductive Keyword where
  | AV | BITPIX | CAMPAIGN | CHANNEL | CHECKSUM | COMMENT | CREATOR
  | DATASUM | DATA_REL | DATE | DEC_OBJ | EBMINUSV | END | EQUINOX
  | EXTEND | EXTNAME | EXTVER | FEH | FILEVER | GCOUNT | GKCOLOR | GLAT
  | GLON | GMAG | GRCOLOR | HISTORY | HMAG | IMAG | INSTRUME | JKCOLOR
  | JMAG | KEPLERID | KEPMAG | KMAG | LOGG | MISSION | MODULE | NAXIS
  | NAXISn (n : Nat)
  | NEXTEND | OBJECT | OBSMODE | ORIGIN | OUTPUT | PARALLAX | PCOUNT
  | PMDEC | PMRA | PMTOTAL | PROCVER | RADESYS | RADIUS | RA_OBJ | RMAG
  | SIMPLE
  | TDIMn (n : Nat) | TDISPn (n : Nat)
  | TEFF | TELESCOP | TFIELDS
  | TFORMn (n : Nat)
  | TIMVERSN | THEAP | TMINDEX
  | TNULLn (n : Nat) | TSCALn (n : Nat)
  | TTABLEID
  | TTYPEn (n : Nat) | TUNITn (n : Nat) | TZEROn (n : Nat)
  | XTENSION | ZMAG
  | Unrecognized (text : List Nat)

/-- Injective code for Keyword, used only to obtain decidable equality
(structural equality, as the derived Rust PartialEq). -/
def Keyword.enc : Keyword → Nat × Nat × List Nat
  | .AV => (0, 0, []) | .BITPIX => (1, 0, []) | .CAMPAIGN => (2, 0, [])
  | .CHANNEL => (3, 0, []) | .CHECKSUM => (4, 0, []) | .COMMENT => (5, 0, [])
  | .CREATOR => (6, 0, []) | .DATASUM => (7, 0, []) | .DATA_REL => (8, 0, [])
  | .DATE => (9, 0, []) | .DEC_OBJ => (10, 0, []) | .EBMINUSV => (11, 0, [])
  | .END => (12, 0, []) | .EQUINOX => (13, 0, []) | .EXTEND => (14, 0, [])
  | .EXTNAME => (15, 0, []) | .EXTVER => (16, 0, []) | .FEH => (17, 0, [])
  | .FILEVER => (18, 0, []) | .GCOUNT => (19, 0, []) | .GKCOLOR => (20, 0, [])
  | .GLAT => (21, 0, []) | .GLON => (22, 0, []) | .GMAG => (23, 0, [])
  | .GRCOLOR => (24, 0, []) | .HISTORY => (25, 0, []) | .HMAG => (26, 0, [])
  | .IMAG => (27, 0, []) | .INSTRUME => (28, 0, []) | .JKCOLOR => (29, 0, [])
  | .JMAG => (30, 0, []) | .KEPLERID => (31, 0, []) | .KEPMAG => (32, 0, [])
  | .KMAG => (33, 0, []) | .LOGG => (34, 0, []) | .MISSION => (35, 0, [])
  | .MODULE => (36, 0, []) | .NAXIS => (37, 0, []) | .NAXISn n => (100, n, [])
  | .NEXTEND => (38, 0, []) | .OBJECT => (39, 0, []) | .OBSMODE => (40, 0, [])
  | .ORIGIN => (41, 0, []) | .OUTPUT => (42, 0, []) | .PARALLAX => (43, 0, [])
  | .PCOUNT => (44, 0, []) | .PMDEC => (45, 0, []) | .PMRA => (46, 0, [])
  | .PMTOTAL => (47, 0, []) | .PROCVER => (48, 0, []) | .RADESYS => (49, 0, [])
  | .RADIUS => (50, 0, []) | .RA_OBJ => (51, 0, []) | .RMAG => (52, 0, [])
  | .SIMPLE => (53, 0, []) | .TDIMn n => (101, n, []) | .TDISPn n => (102, n, [])
  | .TEFF => (54, 0, []) | .TELESCOP => (55, 0, []) | .TFIELDS => (56, 0, [])
  | .TFORMn n => (103, n, []) | .TIMVERSN => (57, 0, []) | .THEAP => (58, 0, [])
  | .TMINDEX => (59, 0, []) | .TNULLn n => (104, n, []) | .TSCALn n => (105, n, [])
  | .TTABLEID => (60, 0, []) | .TTYPEn n => (106, n, []) | .TUNITn n => (107, n, [])
  | .TZEROn n => (108, n, []) | .XTENSION => (61, 0, []) | .ZMAG => (62, 0, [])
  | .Unrecognized t => (200, 0, t)

/-- Partial inverse of Keyword.enc. -/
def Keyword.dec : Nat × Nat × List Nat → Keyword
  | (0, _, _) => .AV | (1, _, _) => .BITPIX | (2, _, _) => .CAMPAIGN
  | (3, _, _) => .CHANNEL | (4, _, _) => .CHECKSUM | (5, _, _) => .COMMENT
  | (6, _, _) => .CREATOR | (7, _, _) => .DATASUM | (8, _, _) => .DATA_REL
  | (9, _, _) => .DATE | (10, _, _) => .DEC_OBJ | (11, _, _) => .EBMINUSV
  | (12, _, _) => .END | (13, _, _) => .EQUINOX | (14, _, _) => .EXTEND
  | (15, _, _) => .EXTNAME | (16, _, _) => .EXTVER | (17, _, _) => .FEH
  | (18, _, _) => .FILEVER | (19, _, _) => .GCOUNT | (20, _, _) => .GKCOLOR
  | (21, _, _) => .GLAT | (22, _, _) => .GLON | (23, _, _) => .GMAG
  | (24, _, _) => .GRCOLOR | (25, _, _) => .HISTORY | (26, _, _) => .HMAG
  | (27, _, _) => .IMAG | (28, _, _) => .INSTRUME | (29, _, _) => .JKCOLOR
  | (30, _, _) => .JMAG | (31, _, _) => .KEPLERID | (32, _, _) => .KEPMAG
  | (33, _, _) => .KMAG | (34, _, _) => .LOGG | (35, _, _) => .MISSION
  | (36, _, _) => .MODULE | (37, _, _) => .NAXIS
  | (38, _, _) => .NEXTEND | (39, _, _) => .OBJECT | (40, _, _) => .OBSMODE
  | (41, _, _) => .ORIGIN | (42, _, _) => .OUTPUT | (43, _, _) => .PARALLAX
  | (44, _, _) => .PCOUNT | (45, _, _) => .PMDEC | (46, _, _) => .PMRA
  | (47, _, _) => .PMTOTAL | (48, _, _) => .PROCVER | (49, _, _) => .RADESYS
  | (50, _, _) => .RADIUS | (51, _, _) => .RA_OBJ | (52, _, _) => .RMAG
  | (53, _, _) => .SIMPLE
  | (54, _, _) => .TEFF | (55, _, _) => .TELESCOP | (56, _, _) => .TFIELDS
  | (57, _, _) => .TIMVERSN | (58, _, _) => .THEAP | (59, _, _) => .TMINDEX
  | (60, _, _) => .TTABLEID | (61, _, _) => .XTENSION | (62, _, _) => .ZMAG
  | (100, n, _) => .NAXISn n | (101, n, _) => .TDIMn n
  | (102, n, _) => .TDISPn n | (103, n, _) => .TFORMn n
  | (104, n, _) => .TNULLn n | (105, n, _) => .TSCALn n
  | (106, n, _) => .TTYPEn n | (107, n, _) => .TUNITn n
  | (108, n, _) => .TZEROn n
  | (_, _, t) => .Unrecognized t

theorem Keyword.dec_enc (k : Keyword) : Keyword.dec (Keyword.enc k) = k := by
  cases k <;> rfl

theorem Keyword.enc_injective : Function.Injective Keyword.enc := by
  intro a b h
  have := congrArg Keyword.dec h
  rwa [Keyword.dec_enc, Keyword.dec_enc] at this

instance : DecidableEq Keyword := fun a b =>
  decidable_of_iff (Keyword.enc a = Keyword.enc b)
    ⟨fun h => Keyword.enc_injective h, fun h => by rw [h]⟩

/-- Classification errors (src/types/keyword.rs ParseKeywordError). -/
inductive ParseKeywordError where
  | UnknownKeyword
  | NotANumber
deriving DecidableEq

instance {ε α : Type} [DecidableEq ε] [DecidableEq α] :
    DecidableEq (Except ε α) := fun x y =>
  match x, y with
  | .ok a, .ok b => decidable_of_iff (a = b) (by simp)
  | .ok _, .error _ => isFalse (by simp)
  | .error _, .ok _ => isFalse (by simp)
  | .error e, .error f => decidable_of_iff (e = f) (by simp)

/-- The static name table of Keyword::from_str, in source order.  The Rust
match arms are mutually exclusive exact matches, so an association-list
lookup is an exact rendering. -/
def static_table : List (List Nat × Keyword) :=
  [(asciiBytes "AV", .AV), (asciiBytes "BITPIX", .BITPIX),
   (asciiBytes "CAMPAIGN", .CAMPAIGN), (asciiBytes "CHANNEL", .CHANNEL),
   (asciiBytes "CHECKSUM", .CHECKSUM), (asciiBytes "COMMENT", .COMMENT),
   (asciiBytes "CREATOR", .CREATOR), (asciiBytes "DATASUM", .DATASUM),
   (asciiBytes "DATA_REL", .DATA_REL), (asciiBytes "DATE", .DATE),
   (asciiBytes "DEC_OBJ", .DEC_OBJ), (asciiBytes "EBMINUSV", .EBMINUSV),
   (asciiBytes "END", .END), (asciiBytes "EQUINOX", .EQUINOX),
   (asciiBytes "EXTEND", .EXTEND), (asciiBytes "EXTNAME", .EXTNAME),
   (asciiBytes "EXTVER", .EXTVER), (asciiBytes "FEH", .FEH),
   (asciiBytes "FILEVER", .FILEVER), (asciiBytes "GCOUNT", .GCOUNT),
   (asciiBytes "GKCOLOR", .GKCOLOR), (asciiBytes "GLAT", .GLAT),
   (asciiBytes "GLON", .GLON), (asciiBytes "GMAG", .GMAG),
   (asciiBytes "GRCOLOR", .GRCOLOR), (asciiBytes "HISTORY", .HISTORY),
   (asciiBytes "HMAG", .HMAG), (asciiBytes "IMAG", .IMAG),
   (asciiBytes "INSTRUME", .INSTRUME), (asciiBytes "JKCOLOR", .JKCOLOR),
   (asciiBytes "JMAG", .JMAG), (asciiBytes "KEPLERID", .KEPLERID),
   (asciiBytes "KEPMAG", .KEPMAG), (asciiBytes "KMAG", .KMAG),
   (asciiBytes "LOGG", .LOGG), (asciiBytes "MISSION", .MISSION),
   (asciiBytes "MODULE", .MODULE), (asciiBytes "NAXIS", .NAXIS),
   (asciiBytes "NEXTEND", .NEXTEND), (asciiBytes "OBJECT", .OBJECT),
   (asciiBytes "OBSMODE", .OBSMODE), (asciiBytes "ORIGIN", .ORIGIN),
   (asciiBytes "OUTPUT", .OUTPUT), (asciiBytes "PARALLAX", .PARALLAX),
   (asciiBytes "PCOUNT", .PCOUNT), (asciiBytes "PMDEC", .PMDEC),
   (asciiBytes "PMRA", .PMRA), (asciiBytes "PMTOTAL", .PMTOTAL),
   (asciiBytes "PROCVER", .PROCVER), (asciiBytes "RADESYS", .RADESYS),
   (asciiBytes "RADIUS", .RADIUS), (asciiBytes "RA_OBJ", .RA_OBJ),
   (asciiBytes "RMAG", .RMAG), (asciiBytes "SIMPLE", .SIMPLE),
   (asciiBytes "TEFF", .TEFF), (asciiBytes "TELESCOP", .TELESCOP),
   (asciiBytes "TFIELDS", .TFIELDS), (asciiBytes "THEAP", .THEAP),
   (asciiBytes "TIMVERSN", .TIMVERSN), (asciiBytes "TMINDEX", .TMINDEX),
   (asciiBytes "TTABLEID", .TTABLEID), (asciiBytes "XTENSION", .XTENSION),
   (asciiBytes "ZMAG", .ZMAG)]

/-- The nine indexed families scanned by Keyword::from_str after a static
miss, in source order (PrefixedKeyword::handles is a starts-with test). -/
def keyword_families : List (List Nat × (Nat → Keyword)) :=
  [(asciiBytes "TDIM", .TDIMn), (asciiBytes "TDISP", .TDISPn),
   (asciiBytes "TFORM", .TFORMn), (asciiBytes "NAXIS", .NAXISn),
   (asciiBytes "TNULL", .TNULLn), (asciiBytes "TSCAL", .TSCALn),
   (asciiBytes "TTYPE", .TTYPEn), (asciiBytes "TUNIT", .TUNITn),
   (asciiBytes "TZERO", .TZEROn)]

/-- src/types/keyword.rs Keyword::from_str: trim trailing whitespace,
look the name up in the static table, then scan the indexed-family
prefixes (first match wins; PrefixedKeyword::transform parses the suffix
as u16, yielding NotANumber on failure), else Unrecognized. -/
def Keyword.from_str (s : List Nat) : Except ParseKeywordError Keyword :=
  let t := trim_end s
  match static_table.find? (fun p => p.1 == t) with
  | some p => .ok p.2
  | none =>
    match keyword_families.find? (fun p => p.1.isPrefixOf t) with
    | some p =>
      match u16_from_str (t.drop p.1.length) with
      | some n => .ok (p.2 n)
      | none => .error .NotANumber
    | none => .ok (.Unrecognized t)

/-! ## src/types/header.rs: Value -/


/-- The possible values of a KeywordRecord (src/types/header.rs).  Real
components are exact rationals standing for the f64 produced by Rust
f64::from_str; see the header comment. -/
inductive Value where
  | CharacterString (s : List Nat)
  | Logical (b : Bool)
  | Integer (n : Int)
  | ComplexInteger (p : Int × Int)
  | Real (q : ℚ)
  | Complex (p : ℚ × ℚ)
  | Undefined
deriving DecidableEq

/-! ## src/parser/header.rs: value grammar -/


/-- nom character::is_digit lifted to the 32-126 printable range test
(src/parser/header.rs is_ascii_text_char). -/
def is_ascii_text_char (c : Nat) : Bool := 32 ≤ c && c ≤ 126

/-- src/parser/header.rs is_string_text_char: printable ASCII except the
single quote. -/
def is_string_text_char (c : Nat) : Bool := is_ascii_text_char c && c ≠ 39

/-- src/parser/header.rs sign: optional plus or minus. -/
def sign (input : List Nat) : Option (List Nat × Option Nat) :=
  match ptag (asciiBytes "+") input with
  | some (r, _) => some (r, some 43)
  | none =>
    match ptag (asciiBytes "-") input with
    | some (r, _) => some (r, some 45)
    | none => some (input, none)

/-- src/parser/header.rs integer: recognize (sign, digits, lookahead that
rejects a following dot), then i64::from_str on the consumed text. -/
def integer (input : List Nat) : Option (List Nat × Int) :=
  match sign input with
  | some (r1, _) =>
    match ptakeWhile1 is_digit r1 with
    | some (r2, _) =>
      if (asciiBytes ".").isPrefixOf r2 then none
      else
        match i64_from_str (input.take (input.length - r2.length)) with
        | some v => some (r2, v)
        | none => none
    | none => none
  | none => none

/-- src/parser/header.rs number_part: take_while1(is_digit). -/
def number_part (input : List Nat) : Option (List Nat × List Nat) :=
  ptakeWhile1 is_digit input

/-- src/parser/header.rs exponent_letter: E or D. -/
def exponent_letter (input : List Nat) : Option (List Nat × List Nat) :=
  palt (ptag (asciiBytes "E")) (ptag (asciiBytes "D")) input

/-- src/parser/header.rs exponent: letter, optional sign, digits. -/
def exponent (input : List Nat) : Option (List Nat × List Nat) :=
  precognize (pand exponent_letter (pand sign number_part)) input

/-- src/parser/header.rs decimal_number_must_integer: digits, then an
optional dot with optional further digits. -/
def decimal_number_must_integer (input : List Nat) :
    Option (List Nat × List Nat) :=
  precognize (pand number_part (popt (pand (ptag (asciiBytes "."))
    (popt number_part)))) input

/-- src/parser/header.rs decimal_number_must_fractional: optional digits,
a mandatory dot, then digits. -/
def decimal_number_must_fractional (input : List Nat) :
    Option (List Nat × List Nat) :=
  precognize (pand (popt number_part) (pand (ptag (asciiBytes "."))
    number_part)) input

/-- src/parser/header.rs decimal_number. -/
def decimal_number (input : List Nat) : Option (List Nat × List Nat) :=
  precognize (pand (popt sign)
    (palt decimal_number_must_integer decimal_number_must_fractional)) input

/-- Rust f64::from_str on the tokens produced by the floating grammar:
optional sign, decimal significand, optional e/E exponent.  The value is
computed exactly in ℚ (built with a single mkRat from the integer
significand and the power-of-ten scale); a token with the FITS D exponent
marker is rejected, exactly as Rust f64::from_str rejects it.  (inf/NaN
forms are never produced by the grammar and are unmodelled.) -/
def f64_from_str (l : List Nat) : Option ℚ :=
  let (neg, r1) :=
    if l.head? = some 43 then (false, l.tail)
    else if l.head? = some 45 then (true, l.tail)
    else (false, l)
  let intDs := r1.takeWhile is_digit
  let r2 := r1.dropWhile is_digit
  let (fracDs, r3) :=
    if r2.head? = some 46 then
      ((r2.tail).takeWhile is_digit, (r2.tail).dropWhile is_digit)
    else ([], r2)
  if intDs.isEmpty && fracDs.isEmpty then none
  else if r2.head? ≠ some 46 && !r2.isEmpty && r2.head? ≠ some 101 &&
      r2.head? ≠ some 69 then none
  else
    let sgn : Int := if neg then -1 else 1
    let mantNum : Nat := digitsVal intDs * 10 ^ fracDs.length + digitsVal fracDs
    let mantDen : Nat := 10 ^ fracDs.length
    match r3 with
    | [] => some (mkRat (sgn * mantNum) mantDen)
    | e :: r4 =>
      if e = 101 ∨ e = 69 then
        let (eneg, r5) :=
          if r4.head? = some 43 then (false, r4.tail)
          else if r4.head? = some 45 then (true, r4.tail)
          else (false, r4)
        if r5.isEmpty = false ∧ r5.all is_digit then
          let ex : Int := if eneg then -(digitsVal r5 : Int) else (digitsVal r5 : Int)
          some (mkRat (sgn * mantNum * 10 ^ ex.toNat) (mantDen * 10 ^ (-ex).toNat))
        else none
      else none

/-- src/parser/header.rs floating: recognize (decimal_number, optional
exponent) and convert the consumed text with f64::from_str. -/
def floating (input : List Nat) : Option (List Nat × ℚ) :=
  match precognize (pand decimal_number (popt exponent)) input with
  | some (r, tok) =>
    match f64_from_str tok with
    | some q => some (r, q)
    | none => none
  | none => none

/-- src/parser/header.rs character_string_value: single-quoted run of
string text chars; trailing spaces of the content are stripped. -/
def character_string_value (input : List Nat) : Option (List Nat × Value) :=
  match ptag (asciiBytes "'") input with
  | some (r1, _) =>
    match ptakeWhile is_string_text_char r1 with
    | some (r2, content) =>
      match ptag (asciiBytes "'") r2 with
      | some (r3, _) =>
        if utf8Valid content then some (r3, .CharacterString (trim_end content))
        else none
      | none => none
    | none => none
  | none => none

/-- src/parser/header.rs logical_value: a single T or F byte. -/
def logical_value (input : List Nat) : Option (List Nat × Value) :=
  match palt (ptag (asciiBytes "T")) (ptag (asciiBytes "F")) input with
  | some (r, t) => some (r, .Logical (t = asciiBytes "T"))
  | none => none

/-- src/parser/header.rs integer_value. -/
def integer_value (input : List Nat) : Option (List Nat × Value) :=
  match integer input with
  | some (r, n) => some (r, .Integer n)
  | none => none

/-- src/parser/header.rs floating_value. -/
def floating_value (input : List Nat) : Option (List Nat × Value) :=
  match floating input with
  | some (r, q) => some (r, .Real q)
  | none => none

/-- src/parser/header.rs complex_integer_value: ( integer , integer ). -/
def complex_integer_value (input : List Nat) : Option (List Nat × Value) :=
  match pair_values integer integer input with
  | some (r, p) => some (r, .ComplexInteger p)
  | none => none

/-- src/parser/header.rs complex_floating_value: ( floating , floating ). -/
def complex_floating_value (input : List Nat) : Option (List Nat × Value) :=
  match pair_values floating floating input with
  | some (r, p) => some (r, .Complex p)
  | none => none

/-- src/parser/header.rs value: the six alternatives in source order —
CharacterString, Logical, Integer, Real, ComplexInteger, Complex. -/
def value (input : List Nat) : Option (List Nat × Value) :=
  palt character_string_value
    (palt logical_value
      (palt integer_value
        (palt floating_value
          (palt complex_integer_value complex_floating_value)))) input

/-! ## src/types/header.rs: records -/


/-- A keyword/value/comment record (src/types/header.rs KeywordRecord). -/
structure KeywordRecord where
  keyword : Keyword
  value : Value
  comment : Option (List Nat)
deriving DecidableEq

/-- A commentary record (src/types/header.rs CommentaryRecord). -/
structure CommentaryRecord where
  keyword : Keyword
  commentary : Option (List Nat)
deriving DecidableEq

/-- One 80-byte header line (src/types/header.rs HeaderRecord). -/
inductive HeaderRecord where
  | KeywordRecord (r : KeywordRecord)
  | CommentaryRecord (c : CommentaryRecord)
  | EndRecord
  | BlankRecord (comment : Option (List Nat))
deriving DecidableEq

/-! ## src/parser/header.rs: record grammar -/


/-- src/parser/header.rs parse_keyword_line: run inner on exactly the
next 80 bytes; terminated(inner, many0(tag " ")) makes the trailing
padding a maximal run of space bytes, which the eof inside exact_length
then requires to reach the end of the line. -/
def parse_keyword_line {α : Type} (inner : List Nat → Option (List Nat × α))
    (input : List Nat) : Option (List Nat × α) :=
  exact_length KEYWORD_LINE_LENGTH
    (fun l =>
      match inner l with
      | some (r, o) => some (r.dropWhile (fun c => c = 32), o)
      | none => none) input

/-- src/parser/header.rs keyword_field: take 8 bytes, from_utf8, then
Keyword::from_str. -/
def keyword_field (input : List Nat) : Option (List Nat × Keyword) :=
  match ptake 8 input with
  | some (r, bs) =>
    if utf8Valid bs then
      match Keyword.from_str bs with
      | .ok k => some (r, k)
      | .error _ => none
    else none
  | none => none

/-- src/parser/header.rs value_indicator: the literal equals-space. -/
def value_indicator (input : List Nat) : Option (List Nat × List Nat) :=
  ptag (asciiBytes "= ") input

/-- src/parser/header.rs comment: a slash, then whitespace-wrapped
printable text, trimmed at the end. -/
def comment (input : List Nat) : Option (List Nat × List Nat) :=
  match ptag (asciiBytes "/") input with
  | some (r1, _) =>
    match ws (ptakeWhile is_ascii_text_char) r1 with
    | some (r2, txt) =>
      if utf8Valid txt then some (r2, trim_end txt) else none
    | none => none
  | none => none

/-- src/parser/header.rs commenatry_text (sic): printable text, trimmed. -/
def commenatry_text (input : List Nat) : Option (List Nat × List Nat) :=
  match ptakeWhile is_ascii_text_char input with
  | some (r, txt) => if utf8Valid txt then some (r, trim_end txt) else none
  | none => none

/-- src/parser/header.rs comment_keyword: the literal COMMENT field fed
through Keyword::from_str. -/
def comment_keyword (input : List Nat) : Option (List Nat × Keyword) :=
  match ptag (asciiBytes "COMMENT ") input with
  | some (r, t) =>
    match Keyword.from_str t with
    | .ok k => some (r, k)
    | .error _ => none
  | none => none

/-- src/parser/header.rs history_keyword. -/
def history_keyword (input : List Nat) : Option (List Nat × Keyword) :=
  match ptag (asciiBytes "HISTORY ") input with
  | some (r, t) =>
    match Keyword.from_str t with
    | .ok k => some (r, k)
    | .error _ => none
  | none => none

/-- src/parser/header.rs commentary_keyword_record. -/
def commentary_keyword_record (input : List Nat) :
    Option (List Nat × HeaderRecord) :=
  parse_keyword_line
    (fun l =>
      match pand (palt comment_keyword history_keyword)
          (popt commenatry_text) l with
      | some (r, (k, txt)) =>
        some (r, .CommentaryRecord ⟨k, txt⟩)
      | none => none) input

/-- src/parser/header.rs value_keyword_record: keyword field, the
equals-space indicator, an optional whitespace-wrapped value (absent means
Undefined), an optional comment. -/
def value_keyword_record (input : List Nat) :
    Option (List Nat × HeaderRecord) :=
  parse_keyword_line
    (fun l =>
      match pand keyword_field (pand value_indicator
          (pand (ws (popt value)) (popt comment))) l with
      | some (r, (k, (_, (v, c)))) =>
        some (r, .KeywordRecord ⟨k, v.getD .Undefined, c⟩)
      | none => none) input

/-- src/parser/header.rs blankfield_record: eight spaces then an optional
comment. -/
def blankfield_record (input : List Nat) : Option (List Nat × HeaderRecord) :=
  parse_keyword_line
    (fun l =>
      match pand (ptag (asciiBytes "        ")) (ws (popt comment)) l with
      | some (r, (_, c)) => some (r, .BlankRecord c)
      | none => none) input

/-- src/parser/header.rs end_record: the literal END field. -/
def end_record (input : List Nat) : Option (List Nat × HeaderRecord) :=
  parse_keyword_line
    (fun l =>
      match ptag (asciiBytes "END     ") l with
      | some (r, _) => some (r, .EndRecord)
      | none => none) input

/-- src/parser/header.rs keyword_record: commentary first, then value. -/
def keyword_record (input : List Nat) : Option (List Nat × HeaderRecord) :=
  palt commentary_keyword_record value_keyword_record input

/-- src/parser/header.rs header_record: keyword_record, end_record,
blankfield_record, in that order. -/
def header_record (input : List Nat) : Option (List Nat × HeaderRecord) :=
  palt keyword_record (palt end_record blankfield_record) input

/-! ## src/parser/stream_parser.rs -/


/-- The streaming assembler state (src/parser/stream_parser.rs
HeaderParser). -/
structure HeaderParser where
  records : List HeaderRecord
  parse_more : Bool
  consumed : Nat
deriving DecidableEq

/-- HeaderParser::new. -/
def HeaderParser.new : HeaderParser := ⟨[], true, 0⟩

/-- The result of parse_record (src/parser/stream_parser.rs
ParseOutcome); Fatal stands for the Rust panic fired on a non-blank
record after the End record. -/
inductive ParseOutcome where
  | Ok (remainder : List Nat)
  | Complete (remainder : List Nat)
  | Error
  | Fatal
deriving DecidableEq

/-- HeaderParser::is_complete: no more records expected and the consumed
byte counter sits on a block boundary. -/
def HeaderParser.is_complete (p : HeaderParser) : Bool :=
  !p.parse_more && p.consumed % FITS_BLOCK_SIZE = 0

/-- Shared tail of parse_record: bump the consumed counter, push the
record, then report Complete or Ok. -/
def HeaderParser.push (p : HeaderParser) (pm : Bool) (record : HeaderRecord)
    (consumedBytes : Nat) (remainder : List Nat) :
    ParseOutcome × HeaderParser :=
  let p2 : HeaderParser :=
    ⟨p.records ++ [record], pm, p.consumed + consumedBytes⟩
  if p2.is_complete then (.Complete remainder, p2) else (.Ok remainder, p2)

/-- HeaderParser::parse_record, with the Rust panic modelled as the Fatal
outcome (state unchanged). -/
def HeaderParser.parse_record (p : HeaderParser) (input : List Nat) :
    ParseOutcome × HeaderParser :=
  match header_record input with
  | none => (.Error, p)
  | some (remainder, record) =>
    match p.parse_more, record with
    | true, .EndRecord =>
      p.push false .EndRecord (input.length - remainder.length) remainder
    | false, .BlankRecord c =>
      p.push false (.BlankRecord c) (input.length - remainder.length) remainder
    | false, _ => (.Fatal, p)
    | true, r => p.push true r (input.length - remainder.length) remainder

/-! ## src/types/header.rs: Header, lookup accessors, size computation

Integer arithmetic inside the size formulas is carried out exactly in ℤ;
the machine-integer effects modelled explicitly are the final `as usize`
cast (a reduction modulo 2^64) and the usize round-up multiply inside
lmle (release semantics: a wrap modulo 2^64; a debug build panics at that
multiplication instead).  Rust i64 intermediate overflow (also a wrap in
release builds) is not modelled; the theorems that depend on intermediate
products therefore carry explicit no-overflow hypotheses under which both
semantics coincide. -/


/-- src/types/header.rs Header. -/
structure Header where
  records : List HeaderRecord
  start : Nat
  length : Nat

/-- src/types/header.rs ValueRetrievalError. -/
inductive ValueRetrievalError where
  | NotAnInteger
  | NotAString
  | NotABool
  | ValueUndefined
  | KeywordNotPresent
deriving DecidableEq

/-- Header::keyword_records: the KeywordRecord entries in order. -/
def Header.keyword_records (h : Header) : List KeywordRecord :=
  h.records.filterMap (fun r =>
    match r with
    | .KeywordRecord k => some k
    | _ => none)

/-- Header::has_keyword_record. -/
def Header.has_keyword_record (h : Header) (k : Keyword) : Bool :=
  h.keyword_records.any (fun kr => kr.keyword == k)

/-- Header::value_of: first matching KeywordRecord wins (the Rust code
guards with has_keyword_record and then scans again; a single find? has
identical behaviour). -/
def Header.value_of (h : Header) (k : Keyword) :
    Except ValueRetrievalError Value :=
  match h.keyword_records.find? (fun kr => kr.keyword == k) with
  | some kr => .ok kr.value
  | none => .error .KeywordNotPresent

/-- Header::integer_value_of. -/
def Header.integer_value_of (h : Header) (k : Keyword) :
    Except ValueRetrievalError Int :=
  match h.value_of k with
  | .ok (.Integer n) => .ok n
  | .ok _ => .error .NotAnInteger
  | .error e => .error e

/-- Header::str_value_of. -/
def Header.str_value_of (h : Header) (k : Keyword) :
    Except ValueRetrievalError (List Nat) :=
  match h.value_of k with
  | .ok (.CharacterString s) => .ok s
  | .ok _ => .error .NotAString
  | .error e => .error e

/-- Header::is_primary: a SIMPLE keyword record exists. -/
def Header.is_primary (h : Header) : Bool :=
  h.has_keyword_record .SIMPLE

/-- Rust Result::unwrap_or. -/
def unwrapOr {ε α : Type} (x : Except ε α) (d : α) : α :=
  match x with
  | .ok a => a
  | .error _ => d

/-- Header::naxis_product: with NAXIS (default 0) positive, multiply the
values of NAXIS1..NAXISlimit, panicking (none) on a missing or non-integer
NAXISn; otherwise 0.  The Rust (n + 1) as u16 cast is the explicit
reduction modulo 2^16. -/
def Header.naxis_product (h : Header) : Option Int :=
  let limit := unwrapOr (h.integer_value_of .NAXIS) 0
  if 0 < limit then
    (List.range limit.toNat).foldlM
      (fun acc n =>
        match h.integer_value_of (.NAXISn ((n + 1) % 65536)) with
        | .ok v => some (acc * v)
        | .error _ => none) 1
  else some 0

/-- The `as usize` cast on an exact integer: reduce modulo 2^64. -/
def castUsize (v : Int) : Nat := (v % 2 ^ 64).toNat

/-- Header::primary_data_array_size:
(BITPIX.unwrap_or(0).abs() * naxis_product) as usize. -/
def Header.primary_data_array_size (h : Header) : Option Nat :=
  (h.naxis_product).map (fun p =>
    castUsize ((unwrapOr (h.integer_value_of .BITPIX) 0).natAbs * p))

/-- Header::extention_data_array_size (sic):
(BITPIX.abs * GCOUNT.unwrap_or(1) * (PCOUNT.unwrap_or(0) + naxis_product))
as usize. -/
def Header.extention_data_array_size (h : Header) : Option Nat :=
  (h.naxis_product).map (fun p =>
    castUsize ((unwrapOr (h.integer_value_of .BITPIX) 0).natAbs *
      unwrapOr (h.integer_value_of .GCOUNT) 1 *
      (unwrapOr (h.integer_value_of .PCOUNT) 0 + p)))

/-- src/types/header.rs lmle: least multiple of k that is at least n,
computed in usize — the multiplies wrap modulo 2^64 (release semantics;
a debug build panics on the overflow instead). -/
def lmle (n k : Nat) : Nat :=
  let q := n / k
  let r := n % k
  if r = 0 then q * k % 2 ^ 64 else (q + 1) * k % 2 ^ 64

/-- Header::data_array_bits: the primary or extension size rounded up to
a whole 2880-byte block of bits; none is the Rust panic raised from
naxis_product. -/
def Header.data_array_bits (h : Header) : Option Nat :=
  if h.is_primary then
    (h.primary_data_array_size).map (fun n => lmle n (FITS_BLOCK_SIZE * 8))
  else
    (h.extention_data_array_size).map (fun n => lmle n (FITS_BLOCK_SIZE * 8))

/-- Header::header_end_position. -/
def Header.header_end_position (h : Header) : Nat := h.start + h.length

/-- Header::next_header: end of the header plus the data array bytes. -/
def Header.next_header (h : Header) : Option Nat :=
  (h.data_array_bits).map (fun b => h.header_end_position + b / 8)

/-! ## Specification-side size formula (for the refinement claim C2)

These definitions follow the words of the specification, not the code:
the data-array size is computed exactly in ℤ with no casts, NAXIS
defaults to 0 making the product 0, GCOUNT defaults to 1, PCOUNT to 0, a
missing NAXISn is a fatal lookup failure, and rounding takes the least
multiple of the block size that is at least the size. -/


/-- Spec: Π(NAXISn for n = 1..NAXIS), 0 when NAXIS (default 0) is not
positive, none when a required NAXISn lookup fails. -/
def specNaxisProduct (h : Header) : Option Int :=
  let naxis := unwrapOr (h.integer_value_of .NAXIS) 0
  if 0 < naxis then
    let vals : Option (List Int) :=
      (List.range naxis.toNat).mapM
        (fun n =>
          match h.integer_value_of (.NAXISn (n + 1)) with
          | .ok v => some v
          | .error _ => none)
    vals.map (fun vs => vs.foldl (· * ·) 1)
  else some 0

/-- Spec: the unrounded data-array size in bits, exactly in ℤ. -/
def specDataArraySize (h : Header) : Option Int :=
  let bitpix : Int := (unwrapOr (h.integer_value_of .BITPIX) 0).natAbs
  if h.is_primary then
    (specNaxisProduct h).map (fun p => bitpix * p)
  else
    (specNaxisProduct h).map (fun p =>
      bitpix * unwrapOr (h.integer_value_of .GCOUNT) 1 *
        (unwrapOr (h.integer_value_of .PCOUNT) 0 + p))

/-- Spec: round up to the least multiple of k at least n (return n when n
is already a multiple, else the next boundary above n). -/
def specRoundUp (n k : Int) : Int :=
  if n % k = 0 then n else (n / k + 1) * k

/-- Spec: the claimed value of data_array_bits. -/
def specDataArrayBits (h : Header) : Option Int :=
  (specDataArraySize h).map (fun n => specRoundUp n (FITS_BLOCK_SIZE * 8))

/-! ## src/types/extension.rs and src/parser/type_forms.rs -/


/-- src/types/extension.rs BinType: the binary-table type-code letters. -/
inductive BinType where
  | L | X | B | I | J | K | A | E | D | C | M | P | Q
deriving DecidableEq

/-- BinType::from_str: one type-code letter. -/
def BinType.from_str (s : List Nat) : Option BinType :=
  if s = asciiBytes "L" then some .L
  else if s = asciiBytes "X" then some .X
  else if s = asciiBytes "B" then some .B
  else if s = asciiBytes "I" then some .I
  else if s = asciiBytes "J" then some .J
  else if s = asciiBytes "K" then some .K
  else if s = asciiBytes "A" then some .A
  else if s = asciiBytes "E" then some .E
  else if s = asciiBytes "D" then some .D
  else if s = asciiBytes "C" then some .C
  else if s = asciiBytes "M" then some .M
  else if s = asciiBytes "P" then some .P
  else if s = asciiBytes "Q" then some .Q
  else none

/-- BinType::size: fixed byte width per type code. -/
def BinType.size : BinType → Nat
  | .L => 1 | .X => 1 | .B => 1 | .I => 2 | .J => 4 | .K => 8 | .A => 1
  | .E => 4 | .D => 8 | .C => 8 | .M => 16 | .P => 8 | .Q => 16

/-- src/types/extension.rs BinForm: repeat count and type code.  The Rust
field named repeat is called rcount here (repeat is a Lean keyword). -/
structure BinForm where
  rcount : Nat
  bintype : BinType
deriving DecidableEq

/-- src/parser/type_forms.rs repeat_count: digits parsed as u16. -/
def repeat_count (input : List Nat) : Option (List Nat × Nat) :=
  match ptakeWhile1 is_digit input with
  | some (r, ds) =>
    match u16_from_str ds with
    | some n => some (r, n)
    | none => none
  | none => none

/-- src/parser/type_forms.rs is_allowed_ascii_char. -/
def is_allowed_ascii_char (c : Nat) : Bool := is_ascii_text_char c

/-- src/parser/type_forms.rs bin_tform: optional repeat count (default 1),
one byte of type code, optional run of descriptive text.  Rust take(1) on
a str takes one char; every type code is ASCII, so one byte is taken
(a non-ASCII byte fails from_str either way). -/
def bin_tform (input : List Nat) : Option (List Nat × BinForm) :=
  match popt repeat_count input with
  | some (r1, rc) =>
    match ptake 1 r1 with
    | some (r2, b) =>
      match popt (ptakeWhile is_allowed_ascii_char) r2 with
      | some (r3, _) =>
        match BinType.from_str b with
        | some bt => some (r3, ⟨rc.getD 1, bt⟩)
        | none => none
      | none => none
    | none => none
  | none => none

/-- src/types/extension.rs TableError. -/
inductive TableError where
  | IncorrectExtension
  | PropertyNotDefined (k : Keyword) (e : ValueRetrievalError)
  | UnexpectedValue (k : Keyword) (v : Value)
  | InvalidFormString (k : Keyword) (s : List Nat)
deriving DecidableEq

/-- src/types/extension.rs BinTable (fields that BinTable::new never
fills are kept with their rustc types collapsed to placeholders). -/
structure BinTable where
  rows : Nat
  cols : Nat
  heap_size : Nat
  tform : List BinForm
  ttype : Option (List (List Nat))
  tunit : Option (List (List Nat))
  scaling : Option (List ℚ)
  zero : Option (List ℚ)
  null : Option Int
  tdisp : Option (List Unit)
  theap : Nat
  tdim : Option (List Unit)
deriving DecidableEq

/-- src/types/extension.rs get_str. -/
def get_str (h : Header) (k : Keyword) : Except TableError (List Nat) :=
  match h.str_value_of k with
  | .ok s => .ok s
  | .error e => .error (.PropertyNotDefined k e)

/-- src/types/extension.rs get_int. -/
def get_int (h : Header) (k : Keyword) : Except TableError Int :=
  match h.integer_value_of k with
  | .ok v => .ok v
  | .error e => .error (.PropertyNotDefined k e)

/-- src/types/extension.rs get_uint: a present Integer that is not
negative, as a Nat. -/
def get_uint (h : Header) (k : Keyword) : Except TableError Nat :=
  match h.value_of k with
  | .error e => .error (.PropertyNotDefined k e)
  | .ok v =>
    match v with
    | .Integer i =>
      if i < 0 then .error (.UnexpectedValue k (.Integer i))
      else .ok i.toNat
    | _ => .error (.PropertyNotDefined k .NotAnInteger)

/-- src/types/extension.rs get_value. -/
def get_value (h : Header) (k : Keyword) : Except TableError Value :=
  match h.value_of k with
  | .ok v => .ok v
  | .error e => .error (.PropertyNotDefined k e)

/-- The TFORMn/TTYPEn loop body of BinTable::new over the field indices,
accumulating the decoded forms and any present names. -/
def bintable_fields (h : Header) : List Nat →
    (List BinForm × List (List Nat)) →
    Except TableError (List BinForm × List (List Nat))
  | [], acc => .ok acc
  | idx :: rest, acc =>
    match get_str h (.TFORMn idx) with
    | .error e => .error e
    | .ok enc =>
      match bin_tform enc with
      | none => .error (.InvalidFormString (.TFORMn idx) enc)
      | some (_, bf) =>
        let ttypeAcc :=
          match get_str h (.TTYPEn idx) with
          | .ok t => acc.2 ++ [t]
          | .error _ => acc.2
        bintable_fields h rest (acc.1 ++ [bf], ttypeAcc)

/-- src/types/extension.rs BinTable::new.  The `tfields as u16` cast and
the u16 upper bound of the 1..=tfields iteration are the explicit
reductions modulo 2^16 (release-build wrap semantics). -/
def BinTable.new (h : Header) : Except TableError BinTable :=
  match get_str h .XTENSION with
  | .error e => .error e
  | .ok x =>
  if x ≠ asciiBytes "BINTABLE" then .error .IncorrectExtension else
  match get_value h .BITPIX with
  | .error e => .error e
  | .ok bitpix =>
  if bitpix ≠ .Integer 8 then .error (.UnexpectedValue .BITPIX bitpix) else
  match get_value h .NAXIS with
  | .error e => .error e
  | .ok naxis =>
  if naxis ≠ .Integer 2 then .error (.UnexpectedValue .NAXIS naxis) else
  match get_value h .GCOUNT with
  | .error e => .error e
  | .ok gcount =>
  if gcount ≠ .Integer 1 then .error (.UnexpectedValue .GCOUNT gcount) else
  match get_uint h (.NAXISn 1) with
  | .error e => .error e
  | .ok rows =>
  match get_uint h (.NAXISn 2) with
  | .error e => .error e
  | .ok cols =>
  match get_uint h .PCOUNT with
  | .error e => .error e
  | .ok heap_size =>
  match get_uint h .TFIELDS with
  | .error e => .error e
  | .ok tfields_raw =>
  match bintable_fields h
      (List.range' 1 ((tfields_raw % 65536 + 1) % 65536 - 1)) ([], []) with
  | .error e => .error e
  | .ok (tformL, ttypeL) =>
  let ttype :=
    if ttypeL.length = tfields_raw % 65536 then some ttypeL else none
  let theap :=
    match get_uint h .THEAP with
    | .ok t => t
    | .error _ => if heap_size = 0 then 0 else rows * cols
  .ok ⟨rows, cols, heap_size, tformL, ttype, none, none, none, none, none,
    theap, none⟩

/-! ## src/types/header.rs and src/types/keyword.rs: Display rendering -/


/-- Decimal digits of a Nat (Rust integer formatting). -/
def natDigits (n : Nat) : List Nat := (Nat.toDigits 10 n).map Char.toNat

/-- Rust formatting of an i64. -/
def intFmt (n : Int) : List Nat :=
  if n < 0 then 45 :: natDigits n.natAbs else natDigits n.toNat

/-- Display for Keyword (src/types/keyword.rs): Unrecognized prints its
stored text, every other variant prints its derived Debug form — the bare
variant name, with indexed variants as name(index). -/
def Keyword.display : Keyword → List Nat
  | .AV => asciiBytes "AV" | .BITPIX => asciiBytes "BITPIX"
  | .CAMPAIGN => asciiBytes "CAMPAIGN" | .CHANNEL => asciiBytes "CHANNEL"
  | .CHECKSUM => asciiBytes "CHECKSUM" | .COMMENT => asciiBytes "COMMENT"
  | .CREATOR => asciiBytes "CREATOR" | .DATASUM => asciiBytes "DATASUM"
  | .DATA_REL => asciiBytes "DATA_REL" | .DATE => asciiBytes "DATE"
  | .DEC_OBJ => asciiBytes "DEC_OBJ" | .EBMINUSV => asciiBytes "EBMINUSV"
  | .END => asciiBytes "END" | .EQUINOX => asciiBytes "EQUINOX"
  | .EXTEND => asciiBytes "EXTEND" | .EXTNAME => asciiBytes "EXTNAME"
  | .EXTVER => asciiBytes "EXTVER" | .FEH => asciiBytes "FEH"
  | .FILEVER => asciiBytes "FILEVER" | .GCOUNT => asciiBytes "GCOUNT"
  | .GKCOLOR => asciiBytes "GKCOLOR" | .GLAT => asciiBytes "GLAT"
  | .GLON => asciiBytes "GLON" | .GMAG => asciiBytes "GMAG"
  | .GRCOLOR => asciiBytes "GRCOLOR" | .HISTORY => asciiBytes "HISTORY"
  | .HMAG => asciiBytes "HMAG" | .IMAG => asciiBytes "IMAG"
  | .INSTRUME => asciiBytes "INSTRUME" | .JKCOLOR => asciiBytes "JKCOLOR"
  | .JMAG => asciiBytes "JMAG" | .KEPLERID => asciiBytes "KEPLERID"
  | .KEPMAG => asciiBytes "KEPMAG" | .KMAG => asciiBytes "KMAG"
  | .LOGG => asciiBytes "LOGG" | .MISSION => asciiBytes "MISSION"
  | .MODULE => asciiBytes "MODULE" | .NAXIS => asciiBytes "NAXIS"
  | .NAXISn n => asciiBytes "NAXISn(" ++ natDigits n ++ asciiBytes ")"
  | .NEXTEND => asciiBytes "NEXTEND" | .OBJECT => asciiBytes "OBJECT"
  | .OBSMODE => asciiBytes "OBSMODE" | .ORIGIN => asciiBytes "ORIGIN"
  | .OUTPUT => asciiBytes "OUTPUT" | .PARALLAX => asciiBytes "PARALLAX"
  | .PCOUNT => asciiBytes "PCOUNT" | .PMDEC => asciiBytes "PMDEC"
  | .PMRA => asciiBytes "PMRA" | .PMTOTAL => asciiBytes "PMTOTAL"
  | .PROCVER => asciiBytes "PROCVER" | .RADESYS => asciiBytes "RADESYS"
  | .RADIUS => asciiBytes "RADIUS" | .RA_OBJ => asciiBytes "RA_OBJ"
  | .RMAG => asciiBytes "RMAG" | .SIMPLE => asciiBytes "SIMPLE"
  | .TDIMn n => asciiBytes "TDIMn(" ++ natDigits n ++ asciiBytes ")"
  | .TDISPn n => asciiBytes "TDISPn(" ++ natDigits n ++ asciiBytes ")"
  | .TEFF => asciiBytes "TEFF" | .TELESCOP => asciiBytes "TELESCOP"
  | .TFIELDS => asciiBytes "TFIELDS"
  | .TFORMn n => asciiBytes "TFORMn(" ++ natDigits n ++ asciiBytes ")"
  | .TIMVERSN => asciiBytes "TIMVERSN" | .THEAP => asciiBytes "THEAP"
  | .TMINDEX => asciiBytes "TMINDEX"
  | .TNULLn n => asciiBytes "TNULLn(" ++ natDigits n ++ asciiBytes ")"
  | .TSCALn n => asciiBytes "TSCALn(" ++ natDigits n ++ asciiBytes ")"
  | .TTABLEID => asciiBytes "TTABLEID"
  | .TTYPEn n => asciiBytes "TTYPEn(" ++ natDigits n ++ asciiBytes ")"
  | .TUNITn n => asciiBytes "TUNITn(" ++ natDigits n ++ asciiBytes ")"
  | .TZEROn n => asciiBytes "TZEROn(" ++ natDigits n ++ asciiBytes ")"
  | .XTENSION => asciiBytes "XTENSION" | .ZMAG => asciiBytes "ZMAG"
  | .Unrecognized t => t

/-- Rust Debug escaping of a printable-ASCII string body. -/
def debugEscape (s : List Nat) : List Nat :=
  s.flatMap (fun c => if c = 34 ∨ c = 92 then [92, c] else [c])

/-- Rust Debug formatting of an f64 value, restricted to the values any
theorem below touches: an integral f64 prints as its integer part
followed by decimal point zero.  (The shortest-roundtrip rendering of
non-integral floats is outside the scope of every claim; the fallback
branch is an explicit num/den form marked by a leading question mark and
is never relied upon.) -/

def floatDebugFmt (q : ℚ) : List Nat :=
  if q.den = 1 then intFmt q.num ++ asciiBytes ".0"
  else asciiBytes "?" ++ intFmt q.num ++ asciiBytes "/" ++ natDigits q.den

/-- The derived Rust Debug form of a Value, as printed by the {:?} in
Display for KeywordRecord. -/
def Value.debugFmt : Value → List Nat
  | .CharacterString s =>
    asciiBytes "CharacterString(" ++ [34] ++ debugEscape s ++ [34] ++
      asciiBytes ")"
  | .Logical true => asciiBytes "Logical(true)"
  | .Logical false => asciiBytes "Logical(false)"
  | .Integer n => asciiBytes "Integer(" ++ intFmt n ++ asciiBytes ")"
  | .ComplexInteger (a, b) =>
    asciiBytes "ComplexInteger((" ++ intFmt a ++ asciiBytes ", " ++
      intFmt b ++ asciiBytes "))"
  | .Real q => asciiBytes "Real(" ++ floatDebugFmt q ++ asciiBytes ")"
  | .Complex (a, b) =>
    asciiBytes "Complex((" ++ floatDebugFmt a ++ asciiBytes ", " ++
      floatDebugFmt b ++ asciiBytes "))"
  | .Undefined => asciiBytes "Undefined"

/-- Display for KeywordRecord (src/types/header.rs): the format string is
keyword, equals-space, Debug of the value, slash, comment-or-empty. -/
def KeywordRecord.display (r : KeywordRecord) : List Nat :=
  r.keyword.display ++ asciiBytes "= " ++ r.value.debugFmt ++
    asciiBytes "/" ++ r.comment.getD []

/-- The chunked feeding loop, iteration-bounded: run parse_record on the
working buffer, stopping at the first Complete (returning its remainder
and the unfed chunks); on a parse failure append the next chunk to the
unconsumed buffer, as a caller that keeps only the bytes not yet consumed
does.  none: the input was exhausted, the Fatal panic fired, or the
iteration budget ran out. -/
def feedChunksF : Nat → HeaderParser → List Nat → List (List Nat) →
    Option (List Nat × List (List Nat))
  | 0, _, _, _ => none
  | fuel + 1, st, buf, chunks =>
    match st.parse_record buf with
    | (.Complete rem, _) => some (rem, chunks)
    | (.Ok rem, st2) => feedChunksF fuel st2 rem chunks
    | (.Fatal, _) => none
    | (.Error, _) =>
      match chunks with
      | [] => none
      | c :: cs => feedChunksF fuel st (buf ++ c) cs

/-- The chunked feeding loop.  The iteration budget exceeds the number of
buffered bytes plus the number of chunks, and every iteration either
consumes at least one buffered byte (a successful parse consumes 80) or
feeds one chunk, so the budget is never exhausted: feedChunks is the
untruncated caller loop around parse_record. -/
def feedChunks (st : HeaderParser) (buf : List Nat)
    (chunks : List (List Nat)) : Option (List Nat × List (List Nat)) :=
  feedChunksF (buf.length + (chunks.map List.length).sum + chunks.length + 1)
    st buf chunks

/-- The parse_more flag is the negation of "an EndRecord has been
produced": it starts true with no records and is cleared exactly when the
EndRecord is pushed. -/
def ParserInv (p : HeaderParser) : Prop :=
  (p.parse_more = false) ↔ .EndRecord ∈ p.records

/-- An 80-byte keyword line used by concrete witnesses. -/
def lineSIMPLE : List Nat :=
  asciiBytes
    "SIMPLE  = T                                                                     "

/-- The 80-byte END line used by concrete witnesses. -/
def lineEND80 : List Nat :=
  asciiBytes
    "END                                                                             "

/-- A well-formed BINTABLE header and its decoded table, used by the C7
witness. -/
def hBinTab : Header :=
  ⟨[.KeywordRecord ⟨.XTENSION, .CharacterString (asciiBytes "BINTABLE"), none⟩,
    .KeywordRecord ⟨.BITPIX, .Integer 8, none⟩,
    .KeywordRecord ⟨.NAXIS, .Integer 2, none⟩,
    .KeywordRecord ⟨.NAXISn 1, .Integer 11, none⟩,
    .KeywordRecord ⟨.NAXISn 2, .Integer 7, none⟩,
    .KeywordRecord ⟨.PCOUNT, .Integer 0, none⟩,
    .KeywordRecord ⟨.GCOUNT, .Integer 1, none⟩,
    .KeywordRecord ⟨.TFIELDS, .Integer 2, none⟩,
    .KeywordRecord ⟨.TFORMn 1, .CharacterString (asciiBytes "1E"), none⟩,
    .KeywordRecord ⟨.TFORMn 2, .CharacterString (asciiBytes "16A"), none⟩],
   0, 2880⟩

/-- Bound hypothesis: every Integer value stored in the header sits in
the nonnegative half of the i64 range. -/
def I64NonnegValues (h : Header) : Prop :=
  ∀ kr ∈ h.keyword_records, ∀ n : Int, kr.value = .Integer n →
    0 ≤ n ∧ n < 2 ^ 63

/-- C2 counterexample header: a primary header with NAXIS1 = -3.  The
code multiplies 8 by -3 and casts the result to usize, yielding
2^64 - 24 bits; rounding that up to a block overflows usize again and
wraps to 3584 (a debug build panics there); the specification formula
yields 0. -/
def hNegAxis : Header :=
  ⟨[.KeywordRecord ⟨.SIMPLE, .Logical true, none⟩,
    .KeywordRecord ⟨.BITPIX, .Integer 8, none⟩,
    .KeywordRecord ⟨.NAXIS, .Integer 1, none⟩,
    .KeywordRecord ⟨.NAXISn 1, .Integer (-3), none⟩], 0, 2880⟩

/-- The Rust unit-test KEPLERID line, space-padded to 80 bytes. -/
def lineKEPLERID : List Nat :=
  asciiBytes "KEPLERID= 200164267" ++ List.replicate 61 32

/-- C10 counterexample header: no BITPIX record, but NAXIS = 1 with
NAXIS1 absent.  naxis_product panics on the missing NAXIS1 before BITPIX
is ever substituted, so data_array_bits is not 0 and next_header is not
start + length. -/
def hNoBitpix : Header :=
  ⟨[.KeywordRecord ⟨.NAXIS, .Integer 1, none⟩], 5, 2880⟩

/-- The record shape required of the i-th line of a C5 stream: the first
N lines are KeywordRecords, line N is the End record, the rest are
blanks; every line parses completely (empty remainder). -/
def lineRecordOk (N i : Nat) (l : List Nat) : Prop :=
  if i < N then ∃ k, header_record l = some ([], .KeywordRecord k)
  else if i = N then header_record l = some ([], .EndRecord)
  else ∃ c, header_record l = some ([], .BlankRecord c)

/-- A fully blank 80-byte line. -/
def blankLine80 : List Nat := List.replicate 80 32

/-- The 2880-byte witness stream: one END line and 35 blank lines. -/
def streamC5 : List Nat :=
  (([] : List (List Nat)) ++ lineEND80 :: List.replicate 35 blankLine80).flatten

/-! ## Consumption lemmas and the chunked feeding driver -/

theorem exact_length_some {α : Type} {len : Nat}
    {inner : List Nat → Option (List Nat × α)} {input rest : List Nat}
    {o : α} (h : exact_length len inner input = some (rest, o)) :
    rest = input.drop len ∧ len ≤ input.length := by
  unfold exact_length at h
  split at h
  · refine ⟨?_, by assumption⟩
    split at h
    · split at h
      · simp only [Option.some.injEq, Prod.mk.injEq] at h
        exact h.1.symm
      · exact absurd h (by simp)
    · exact absurd h (by simp)
  · exact absurd h (by simp)

theorem parse_keyword_line_some {α : Type}
    {inner : List Nat → Option (List Nat × α)} {input rest : List Nat}
    {o : α} (h : parse_keyword_line inner input = some (rest, o)) :
    rest = input.drop 80 ∧ 80 ≤ input.length :=
  exact_length_some h

theorem palt_some {α : Type} {p q : List Nat → Option (List Nat × α)}
    {input : List Nat} {r : List Nat × α} (h : palt p q input = some r) :
    p input = some r ∨ q input = some r := by
  unfold palt at h
  split at h
  · exact Or.inl (by rw [← h]; assumption)
  · exact Or.inr h

theorem header_record_consumes {input rest : List Nat} {r : HeaderRecord}
    (h : header_record input = some (rest, r)) :
    rest = input.drop 80 ∧ 80 ≤ input.length := by
  rcases palt_some h with h1 | h1
  · rcases palt_some h1 with h2 | h2
    · unfold commentary_keyword_record at h2
      exact parse_keyword_line_some h2
    · unfold value_keyword_record at h2
      exact parse_keyword_line_some h2
  · rcases palt_some h1 with h2 | h2
    · unfold end_record at h2
      exact parse_keyword_line_some h2
    · unfold blankfield_record at h2
      exact parse_keyword_line_some h2

theorem push_outcome {p p2 : HeaderParser} {pm : Bool}
    {record : HeaderRecord} {n : Nat} {remainder : List Nat}
    {out : ParseOutcome} (h : p.push pm record n remainder = (out, p2)) :
    out = .Ok remainder ∨ out = .Complete remainder := by
  simp only [HeaderParser.push] at h
  split at h
  · right
    simp only [Prod.mk.injEq] at h
    exact h.1.symm
  · left
    simp only [Prod.mk.injEq] at h
    exact h.1.symm

theorem parse_record_ok_shrinks {p p2 : HeaderParser} {input rem : List Nat}
    (h : p.parse_record input = (.Ok rem, p2)) : rem.length < input.length := by
  unfold HeaderParser.parse_record at h
  split at h
  · simp at h
  · rename_i remainder record heq
    obtain ⟨hrem, hlen⟩ := header_record_consumes heq
    have hr : rem = remainder := by
      split at h
      · rcases push_outcome h with h2 | h2 <;> simp_all
      · rcases push_outcome h with h2 | h2 <;> simp_all
      · simp at h
      · rcases push_outcome h with h2 | h2 <;> simp_all
    subst hr hrem
    simp only [List.length_drop]
    omega

/-! ## Assembler invariant and the claims about parse_record -/


theorem parserInv_new : ParserInv HeaderParser.new := by
  simp [ParserInv, HeaderParser.new]

theorem push_spec {p p2 : HeaderParser} {pm : Bool} {record : HeaderRecord}
    {n : Nat} {remainder : List Nat} {out : ParseOutcome}
    (h : p.push pm record n remainder = (out, p2)) :
    p2 = ⟨p.records ++ [record], pm, p.consumed + n⟩ ∧
      out = (if (⟨p.records ++ [record], pm, p.consumed + n⟩ :
        HeaderParser).is_complete then .Complete remainder
        else .Ok remainder) := by
  simp only [HeaderParser.push] at h
  split at h
  · rename_i hc
    simp only [Prod.mk.injEq] at h
    refine ⟨h.2.symm, ?_⟩
    rw [if_pos hc]
    exact h.1.symm
  · rename_i hc
    simp only [Prod.mk.injEq] at h
    refine ⟨h.2.symm, ?_⟩
    rw [if_neg hc]
    exact h.1.symm

/-- Exhaustive characterization of parse_record: a grammar failure leaves
the state untouched; a parsed record either goes through push (with the
new parse_more flag cleared exactly when this record is the EndRecord or
the flag was already cleared), or — a non-blank record with the flag
cleared — fires the panic. -/
theorem parse_record_cases {p p2 : HeaderParser} {input : List Nat}
    {out : ParseOutcome} (h : p.parse_record input = (out, p2)) :
    (header_record input = none ∧ out = .Error ∧ p2 = p) ∨
    (∃ remainder record pm,
      header_record input = some (remainder, record) ∧
      p.push pm record (input.length - remainder.length) remainder =
        (out, p2) ∧
      (pm = false ↔ (record = .EndRecord ∨ p.parse_more = false)) ∧
      (p.parse_more = false → ∃ c, record = .BlankRecord c)) ∨
    (∃ remainder record,
      header_record input = some (remainder, record) ∧
      p.parse_more = false ∧ (∀ c, record ≠ .BlankRecord c) ∧
      out = .Fatal ∧ p2 = p) := by
  unfold HeaderParser.parse_record at h
  split at h
  · rename_i heq
    simp only [Prod.mk.injEq] at h
    exact Or.inl ⟨heq, h.1.symm, h.2.symm⟩
  · rename_i remainder record heq
    split at h
    · rename_i hpm
      refine Or.inr (Or.inl ⟨remainder, .EndRecord, false, heq, h, by simp,
        fun hf => absurd hpm (by simp [hf])⟩)
    · rename_i hpm
      refine Or.inr (Or.inl ⟨remainder, _, false, heq, h, by simp [hpm],
        fun _ => ⟨_, rfl⟩⟩)
    · rename_i hpm hnb
      simp only [Prod.mk.injEq] at h
      refine Or.inr (Or.inr ⟨remainder, _, heq, hpm,
        fun c hc => hnb c hc, h.1.symm, h.2.symm⟩)
    · rename_i hpm hne
      refine Or.inr (Or.inl ⟨remainder, _, true, heq, h, ?_,
        fun hf => absurd hpm (by simp [hf])⟩)
      constructor
      · intro hf
        exact absurd hf (by simp)
      · rintro (hrec | hf)
        · exact absurd hrec hne
        · exact absurd hpm (by simp [hf])

theorem parse_record_preserves_inv {p p2 : HeaderParser}
    {input : List Nat} {out : ParseOutcome} (hInv : ParserInv p)
    (h : p.parse_record input = (out, p2)) : ParserInv p2 := by
  rcases parse_record_cases h with ⟨-, -, hp⟩ |
    ⟨remainder, record, pm, heq, hpush, hiff, -⟩ | ⟨-, -, -, -, -, -, hp⟩
  · exact hp ▸ hInv
  · obtain ⟨hp2, -⟩ := push_spec hpush
    subst hp2
    show (pm = false) ↔ HeaderRecord.EndRecord ∈ p.records ++ [record]
    calc (pm = false)
        ↔ (record = .EndRecord ∨ p.parse_more = false) := hiff
      _ ↔ (record = .EndRecord ∨ HeaderRecord.EndRecord ∈ p.records) := by
          have hInv2 : (p.parse_more = false) ↔
              HeaderRecord.EndRecord ∈ p.records := hInv
          rw [hInv2]
      _ ↔ HeaderRecord.EndRecord ∈ p.records ++ [record] := by
          simp only [List.mem_append, List.mem_singleton]
          constructor
          · rintro (hr | hm)
            · exact Or.inr hr.symm
            · exact Or.inl hm
          · rintro (hm | hr)
            · exact Or.inr hm
            · exact Or.inl hr.symm
  · exact hp ▸ hInv

/-- C1: every successful parse_record call consumes exactly 80 bytes, and
reports Complete exactly when an EndRecord has been produced (this call or
earlier — equivalently, the EndRecord sits in the updated record list) and
the updated consumed counter is a multiple of the 2880-byte block; every
other successful call reports Ok (more records needed). -/
theorem parse_record_streaming_contract (p p2 : HeaderParser)
    (input rem : List Nat) (out : ParseOutcome) (hInv : ParserInv p)
    (hout : p.parse_record input = (out, p2))
    (hsucc : out = .Ok rem ∨ out = .Complete rem) :
    p2.consumed = p.consumed + 80 ∧ rem = input.drop 80 ∧
      (out = .Complete rem ↔
        (.EndRecord ∈ p2.records ∧ p2.consumed % FITS_BLOCK_SIZE = 0)) ∧
      (¬(.EndRecord ∈ p2.records ∧ p2.consumed % FITS_BLOCK_SIZE = 0) →
        out = .Ok rem) := by
  have hInv2 : ParserInv p2 := parse_record_preserves_inv hInv hout
  rcases parse_record_cases hout with ⟨-, ho, -⟩ |
    ⟨remainder, record, pm, heq, hpush, -, -⟩ | ⟨-, -, -, -, -, ho, -⟩
  · rcases hsucc with rfl | rfl <;> simp at ho
  · obtain ⟨hrem, hlen⟩ := header_record_consumes heq
    have h80 : input.length - remainder.length = 80 := by
      subst hrem
      simp only [List.length_drop]
      omega
    obtain ⟨hp2, houtc⟩ := push_spec hpush
    rw [h80] at hp2 houtc
    rw [← hp2] at houtc
    have hremeq : rem = remainder := by
      rcases hsucc with rfl | rfl <;> (split at houtc <;> simp_all)
    have hcons : p2.consumed = p.consumed + 80 := by rw [hp2]
    have hiff2 : out = .Complete rem ↔ p2.is_complete = true := by
      subst hremeq
      constructor
      · intro hc
        split at houtc
        · assumption
        · rw [hc] at houtc
          exact absurd houtc (by simp)
      · intro hc
        rw [if_pos hc] at houtc
        exact houtc
    have hisc : p2.is_complete = true ↔
        (.EndRecord ∈ p2.records ∧ p2.consumed % FITS_BLOCK_SIZE = 0) := by
      unfold HeaderParser.is_complete
      rw [Bool.and_eq_true, Bool.not_eq_true']
      constructor
      · rintro ⟨h1, h2⟩
        exact ⟨hInv2.mp h1, by simpa using h2⟩
      · rintro ⟨h1, h2⟩
        exact ⟨hInv2.mpr h1, by simpa using h2⟩
    refine ⟨hcons, hremeq.trans hrem, hiff2.trans hisc, fun hn => ?_⟩
    rcases hsucc with h | h
    · exact h
    · exact absurd ((hiff2.trans hisc).mp h) hn
  · rcases hsucc with rfl | rfl <;> simp at ho

/-- C6: a record parsed after the EndRecord that is not a BlankRecord
fires the unrecoverable panic (Fatal) and is never accepted as a normal
Ok or Complete outcome; the state is untouched. -/
theorem parse_record_after_end_is_fatal (p : HeaderParser)
    (input rem : List Nat) (r : HeaderRecord) (hInv : ParserInv p)
    (hEnd : .EndRecord ∈ p.records)
    (hparse : header_record input = some (rem, r))
    (hnb : ∀ c, r ≠ .BlankRecord c) :
    p.parse_record input = (.Fatal, p) := by
  have hpm : p.parse_more = false := hInv.mpr hEnd
  unfold HeaderParser.parse_record
  rw [hparse, hpm]
  cases r with
  | BlankRecord c => exact absurd rfl (hnb c)
  | EndRecord => rfl
  | KeywordRecord k => rfl
  | CommentaryRecord c => rfl

/-- Witness for C6 at a concrete post-End state and keyword line. -/
theorem parse_record_after_end_is_fatal_witness :
    HeaderParser.parse_record ⟨[.EndRecord], false, 80⟩ lineSIMPLE =
      (.Fatal, ⟨[.EndRecord], false, 80⟩) :=
  parse_record_after_end_is_fatal ⟨[.EndRecord], false, 80⟩ lineSIMPLE []
    (.KeywordRecord ⟨.SIMPLE, .Logical true, none⟩)
    (by constructor <;> (intro h; simp_all)) (by simp) (by decide)
    (fun c h => HeaderRecord.noConfusion h)

/-- Witness for C1 at a concrete state: parsing the END line at consumed
count 2800 completes the 2880-byte block, adding exactly 80 bytes. -/
theorem parse_record_streaming_contract_witness :
    (⟨[.EndRecord], false, 2880⟩ : HeaderParser).consumed = 2800 + 80 :=
  (parse_record_streaming_contract ⟨[], true, 2800⟩
    ⟨[.EndRecord], false, 2880⟩ lineEND80 [] (.Complete [])
    (by constructor <;> (intro h; simp_all))
    (by decide) (Or.inr rfl)).1

/-! ## Claims about the value grammar (C3) -/

theorem takeWhile_append_stop {p : Nat → Bool} {ds : List Nat} {x : Nat}
    (rest : List Nat) (h : ∀ d ∈ ds, p d = true) (hx : p x = false) :
    (ds ++ x :: rest).takeWhile p = ds ∧
      (ds ++ x :: rest).dropWhile p = x :: rest := by
  induction ds with
  | nil => simp [List.takeWhile_cons, List.dropWhile_cons, hx]
  | cons a as ih =>
    have ha := h a (List.mem_cons_self a as)
    have ih2 := ih (fun d hd => h d (List.mem_cons_of_mem a hd))
    simp [List.takeWhile_cons, List.dropWhile_cons, ha, ih2.1, ih2.2]

theorem sign_on_digit {d : Nat} (l : List Nat) (hd : is_digit d = true) :
    sign (d :: l) = some (d :: l, none) := by
  have hd2 : 48 ≤ d ∧ d ≤ 57 := by
    simpa [is_digit] using hd
  unfold sign ptag
  rw [show asciiBytes "+" = [43] from by decide,
    show asciiBytes "-" = [45] from by decide]
  have p1 : ([43].isPrefixOf (d :: l)) = false := by
    simp [List.isPrefixOf]
    omega
  have p2 : ([45].isPrefixOf (d :: l)) = false := by
    simp [List.isPrefixOf]
    omega
  rw [p1, p2]
  simp

theorem sign_plus (l : List Nat) : sign (43 :: l) = some (l, some 43) := by
  unfold sign ptag
  rw [show asciiBytes "+" = [43] from by decide]
  simp [List.isPrefixOf]

theorem sign_minus (l : List Nat) : sign (45 :: l) = some (l, some 45) := by
  unfold sign ptag
  rw [show asciiBytes "+" = [43] from by decide,
    show asciiBytes "-" = [45] from by decide]
  simp [List.isPrefixOf]

/-- The Integer alternative rejects a (possibly signed) digit run that is
immediately followed by a dot. -/
theorem integer_rejects_dot (sgn ds rest : List Nat)
    (hsgn : sgn = [] ∨ sgn = [43] ∨ sgn = [45]) (hne : ds ≠ [])
    (hdig : ∀ d ∈ ds, is_digit d = true) :
    integer (sgn ++ (ds ++ 46 :: rest)) = none := by
  obtain ⟨d, ds2, rfl⟩ : ∃ d ds2, ds = d :: ds2 := by
    cases ds with
    | nil => exact absurd rfl hne
    | cons d ds2 => exact ⟨d, ds2, rfl⟩
  have hdot : is_digit 46 = false := by decide
  have htw := takeWhile_append_stop (p := is_digit) rest hdig hdot
  simp only [List.cons_append] at htw
  have hpre : ((asciiBytes ".").isPrefixOf (46 :: rest)) = true := by
    rw [show asciiBytes "." = [46] from by decide]
    simp [List.isPrefixOf]
  have hrun : ptakeWhile1 is_digit (d :: (ds2 ++ 46 :: rest)) =
      some (46 :: rest, d :: ds2) := by
    unfold ptakeWhile1
    rw [htw.1, htw.2]
    simp
  have hd0 := hdig d (List.mem_cons_self d ds2)
  rcases hsgn with rfl | rfl | rfl <;>
    simp only [List.cons_append, List.nil_append]
  · unfold integer
    rw [sign_on_digit _ hd0]
    simp [hrun, hpre]
  · unfold integer
    rw [sign_plus]
    simp [hrun, hpre]
  · unfold integer
    rw [sign_minus]
    simp [hrun, hpre]

/-- C3: the value grammar tries CharacterString, Logical, Integer, Real,
ComplexInteger, Complex in exactly this order; the Integer alternative
rejects a digit run immediately followed by a dot; consequently 1 parses
as Integer(1) (never Real), 1.0 as Real(1.0) (never Integer), (1,2) as
ComplexInteger and (1.0,2.0) as Complex. -/
theorem value_disambiguation :
    value = (fun input =>
      palt character_string_value
        (palt logical_value
          (palt integer_value
            (palt floating_value
              (palt complex_integer_value complex_floating_value)))) input) ∧
    (∀ sgn ds rest, (sgn = [] ∨ sgn = [43] ∨ sgn = [45]) → ds ≠ [] →
      (∀ d ∈ ds, is_digit d = true) →
      integer (sgn ++ (ds ++ 46 :: rest)) = none) ∧
    value (asciiBytes "1") = some ([], .Integer 1) ∧
    value (asciiBytes "1.0") = some ([], .Real 1) ∧
    value (asciiBytes "(1,2)") = some ([], .ComplexInteger (1, 2)) ∧
    value (asciiBytes "(1.0,2.0)") = some ([], .Complex (1, 2)) :=
  ⟨rfl, integer_rejects_dot, by decide, by decide, by decide, by decide⟩

/-- Witness for C3's hypothesis-bearing part at the concrete digit run
3 dot 5: the Integer alternative rejects it. -/
theorem value_disambiguation_witness :
    integer (asciiBytes "3.5") = none := by
  have h := (value_disambiguation.2.1) [] [51] (asciiBytes "5")
    (Or.inl rfl) (by simp) (by decide)
  simpa [asciiBytes, Char.toNat] using h

/-! ## Claims about the keyword classifier (C4) -/


/-- C4: classification trims the 8-byte field, consults the static table,
then the indexed families in order (suffix parsed as u16, NotANumber on
failure), and otherwise yields Unrecognized with the trimmed text;
NAXIS3 classifies as NAXISn(3) and bare NAXIS as the plain keyword. -/
theorem keyword_classification (s : List Nat) :
    Keyword.from_str (asciiBytes "NAXIS3 ") = .ok (.NAXISn 3) ∧
    Keyword.from_str (asciiBytes "NAXIS") = .ok .NAXIS ∧
    (∀ q, static_table.find? (fun p => p.1 == trim_end s) = some q →
      Keyword.from_str s = .ok q.2) ∧
    (∀ q, static_table.find? (fun p => p.1 == trim_end s) = none →
      keyword_families.find? (fun p => p.1.isPrefixOf (trim_end s)) =
        some q →
      u16_from_str ((trim_end s).drop q.1.length) = none →
      Keyword.from_str s = .error .NotANumber) ∧
    (static_table.find? (fun p => p.1 == trim_end s) = none →
      keyword_families.find? (fun p => p.1.isPrefixOf (trim_end s)) = none →
      Keyword.from_str s = .ok (.Unrecognized (trim_end s))) := by
  refine ⟨by decide, by decide, ?_, ?_, ?_⟩
  · intro q hq
    simp only [Keyword.from_str]
    rw [hq]
  · intro q hs hq hu
    simp only [Keyword.from_str]
    rw [hs, hq]
    simp [hu]
  · intro hs hq
    simp only [Keyword.from_str]
    rw [hs, hq]

/-- Witness for C4's hypothesis-bearing parts: a matching family prefix
with a non-numeric suffix gives NotANumber, and a miss everywhere gives
Unrecognized with the trimmed text. -/
theorem keyword_classification_witness :
    Keyword.from_str (asciiBytes "NAXISXY ") = .error .NotANumber ∧
    Keyword.from_str (asciiBytes "FOO123  ") =
      .ok (.Unrecognized (asciiBytes "FOO123")) := by
  constructor
  · exact (keyword_classification (asciiBytes "NAXISXY ")).2.2.2.1
      (asciiBytes "NAXIS", Keyword.NAXISn) (by decide) rfl (by decide)
  · exact (keyword_classification (asciiBytes "FOO123  ")).2.2.2.2
      (by decide) rfl

/-! ## Claims about TFORM decoding (C8) -/

theorem bintype_letter_not_digit {ty : Nat} {bt : BinType}
    (h : BinType.from_str [ty] = some bt) : is_digit ty = false := by
  by_contra hd
  have hd1 : is_digit ty = true := by
    cases hq : is_digit ty
    · exact absurd hq hd
    · rfl
  have hb : 48 ≤ ty ∧ ty ≤ 57 := by simpa [is_digit] using hd1
  obtain ⟨hb1, hb2⟩ := hb
  interval_cases ty <;> cases bt <;> exact absurd h (by decide)

theorem repeat_count_on_digits {ds : List Nat} {ty : Nat} {r : Nat}
    (rest : List Nat) (hne : ds ≠ []) (hdig : ∀ d ∈ ds, is_digit d = true)
    (hty : is_digit ty = false) (hr : u16_from_str ds = some r) :
    repeat_count (ds ++ ty :: rest) = some (ty :: rest, r) := by
  have htw := takeWhile_append_stop (p := is_digit) rest hdig hty
  unfold repeat_count ptakeWhile1
  rw [htw.1, htw.2]
  have hie : ds.isEmpty = false := by
    cases ds with
    | nil => exact absurd rfl hne
    | cons a l => rfl
  rw [hie]
  simp [hr]

theorem repeat_count_no_digit {ty : Nat} (rest : List Nat)
    (hty : is_digit ty = false) : repeat_count (ty :: rest) = none := by
  unfold repeat_count ptakeWhile1
  simp [List.takeWhile_cons, hty]

theorem get_str_not_ifs {h : Header} {k k2 : Keyword} {s : List Nat} :
    get_str h k ≠ .error (.InvalidFormString k2 s) := by
  unfold get_str
  split <;> simp

theorem get_value_not_ifs {h : Header} {k k2 : Keyword} {s : List Nat} :
    get_value h k ≠ .error (.InvalidFormString k2 s) := by
  unfold get_value
  split <;> simp

theorem get_uint_not_ifs {h : Header} {k k2 : Keyword} {s : List Nat} :
    get_uint h k ≠ .error (.InvalidFormString k2 s) := by
  unfold get_uint
  split
  · simp
  · split
    · split <;> simp
    · simp

theorem bintable_fields_invalid {h : Header} {idxs : List Nat}
    {acc : List BinForm × List (List Nat)} {k : Keyword} {s : List Nat}
    (hr : bintable_fields h idxs acc = .error (.InvalidFormString k s)) :
    bin_tform s = none ∧ get_str h k = .ok s ∧ ∃ n, k = .TFORMn n := by
  induction idxs generalizing acc with
  | nil => simp [bintable_fields] at hr
  | cons idx rest ih =>
    unfold bintable_fields at hr
    split at hr
    · rename_i e heq
      simp only [Except.error.injEq] at hr
      exact absurd heq (hr ▸ get_str_not_ifs)
    · rename_i enc heq
      split at hr
      · simp only [Except.error.injEq, TableError.InvalidFormString.injEq] at hr
        rename_i hbt
        obtain ⟨hk, hs⟩ := hr
        subst hk hs
        exact ⟨hbt, heq, idx, rfl⟩
      · exact ih hr

/-- InvalidFormString errors of BinTable::new come exactly from an
unparseable TFORMn string. -/
theorem invalid_form_origin {h : Header} {k : Keyword} {s : List Nat}
    (hr : BinTable.new h = .error (.InvalidFormString k s)) :
    bin_tform s = none ∧ get_str h k = .ok s ∧ ∃ n, k = .TFORMn n := by
  unfold BinTable.new at hr
  split at hr
  · rename_i e heq
    simp only [Except.error.injEq] at hr
    exact absurd heq (hr ▸ get_str_not_ifs)
  · split at hr
    · simp at hr
    · split at hr
      · rename_i e heq
        simp only [Except.error.injEq] at hr
        exact absurd heq (hr ▸ get_value_not_ifs)
      · split at hr
        · simp at hr
        · split at hr
          · rename_i e heq
            simp only [Except.error.injEq] at hr
            exact absurd heq (hr ▸ get_value_not_ifs)
          · split at hr
            · simp at hr
            · split at hr
              · rename_i e heq
                simp only [Except.error.injEq] at hr
                exact absurd heq (hr ▸ get_value_not_ifs)
              · split at hr
                · simp at hr
                · split at hr
                  · rename_i e heq
                    simp only [Except.error.injEq] at hr
                    exact absurd heq (hr ▸ get_uint_not_ifs)
                  · split at hr
                    · rename_i e heq
                      simp only [Except.error.injEq] at hr
                      exact absurd heq (hr ▸ get_uint_not_ifs)
                    · split at hr
                      · rename_i e heq
                        simp only [Except.error.injEq] at hr
                        exact absurd heq (hr ▸ get_uint_not_ifs)
                      · split at hr
                        · rename_i e heq
                          simp only [Except.error.injEq] at hr
                          exact absurd heq (hr ▸ get_uint_not_ifs)
                        · rename_i tfraw heqtf
                          cases heqf : bintable_fields h
                              (List.range' 1 ((tfraw % 65536 + 1) % 65536 - 1))
                              ([], []) with
                          | error e =>
                            rw [heqf] at hr
                            simp only [Except.error.injEq] at hr
                            exact bintable_fields_invalid (hr ▸ heqf)
                          | ok pr =>
                            obtain ⟨tformL, ttypeL⟩ := pr
                            rw [heqf] at hr
                            simp at hr

theorem bin_tform_after_count {ty : Nat} {bt : BinType} {rest : List Nat}
    (hbt : BinType.from_str [ty] = some bt)
    (hrest : ∀ c ∈ rest, is_allowed_ascii_char c = true) (rc : Option Nat)
    (input : List Nat)
    (hrc : popt repeat_count input = some (ty :: rest, rc)) :
    bin_tform input = some ([], ⟨rc.getD 1, bt⟩) := by
  have htake : ptake 1 (ty :: rest) = some (rest, [ty]) := by
    unfold ptake
    simp [List.take, List.drop]
  have hdw : rest.dropWhile is_allowed_ascii_char = [] :=
    List.dropWhile_eq_nil_iff.mpr (fun x hx => by simp [hrest x hx])
  have hopt : popt (ptakeWhile is_allowed_ascii_char) rest =
      some ([], some (rest.takeWhile is_allowed_ascii_char)) := by
    unfold popt ptakeWhile
    rw [hdw]
  unfold bin_tform
  rw [hrc]
  simp only [htake, hopt, hbt]

/-- C8: bin_tform parses an optional decimal repeat count (default 1),
one type-code letter (an unknown letter fails the parse, which
BinTable::new reports as InvalidFormString), and optional trailing text;
each letter maps to its fixed byte width; 0A, 16A and 1E parse as
claimed. -/
theorem bin_tform_contract :
    bin_tform (asciiBytes "0A") = some ([], ⟨0, .A⟩) ∧
    bin_tform (asciiBytes "16A") = some ([], ⟨16, .A⟩) ∧
    bin_tform (asciiBytes "1E") = some ([], ⟨1, .E⟩) ∧
    (∀ ds ty rest r bt, ds ≠ [] → (∀ d ∈ ds, is_digit d = true) →
      u16_from_str ds = some r → BinType.from_str [ty] = some bt →
      (∀ c ∈ rest, is_allowed_ascii_char c = true) →
      bin_tform (ds ++ ty :: rest) = some ([], ⟨r, bt⟩)) ∧
    (∀ ty rest bt, BinType.from_str [ty] = some bt →
      (∀ c ∈ rest, is_allowed_ascii_char c = true) →
      bin_tform (ty :: rest) = some ([], ⟨1, bt⟩)) ∧
    (∀ c rest, is_digit c = false → BinType.from_str [c] = none →
      bin_tform (c :: rest) = none) ∧
    (BinType.size .L = 1 ∧ BinType.size .X = 1 ∧ BinType.size .B = 1 ∧
      BinType.size .I = 2 ∧ BinType.size .J = 4 ∧ BinType.size .K = 8 ∧
      BinType.size .A = 1 ∧ BinType.size .E = 4 ∧ BinType.size .D = 8 ∧
      BinType.size .C = 8 ∧ BinType.size .M = 16 ∧ BinType.size .P = 8 ∧
      BinType.size .Q = 16) ∧
    (∀ h k s, BinTable.new h = .error (.InvalidFormString k s) →
      bin_tform s = none ∧ get_str h k = .ok s ∧ ∃ n, k = .TFORMn n) := by
  refine ⟨by decide, by decide, by decide, ?_, ?_, ?_, by decide, ?_⟩
  · intro ds ty rest r bt hne hdig hr hbt hrest
    have hty := bintype_letter_not_digit hbt
    have hcount := repeat_count_on_digits rest hne hdig hty hr
    have hpopt : popt repeat_count (ds ++ ty :: rest) =
        some (ty :: rest, some r) := by
      unfold popt
      rw [hcount]
    exact bin_tform_after_count hbt hrest (some r) _ hpopt
  · intro ty rest bt hbt hrest
    have hty := bintype_letter_not_digit hbt
    have hpopt : popt repeat_count (ty :: rest) =
        some (ty :: rest, none) := by
      unfold popt
      rw [repeat_count_no_digit rest hty]
    exact bin_tform_after_count hbt hrest none _ hpopt
  · intro c rest hc hbt
    have hpopt : popt repeat_count (c :: rest) = some (c :: rest, none) := by
      unfold popt
      rw [repeat_count_no_digit rest hc]
    have htake : ptake 1 (c :: rest) = some (rest, [c]) := by
      unfold ptake
      simp [List.take, List.drop]
    unfold bin_tform
    rw [hpopt]
    simp only [htake, hbt, popt, ptakeWhile]
  · exact fun h k s hr => invalid_form_origin hr

/-- Witness for C8's hypothesis-bearing part: repeat 12 with type B and
trailing descriptive text. -/
theorem bin_tform_contract_witness :
    bin_tform (asciiBytes "12Bxy") = some ([], ⟨12, .B⟩) := by
  have h := (bin_tform_contract.2.2.2.1) [49, 50] 66 [120, 121] 12 .B
    (by simp) (by decide) (by decide) (by decide) (by decide)
  rw [show asciiBytes "12Bxy" = [49, 50] ++ 66 :: [120, 121] from by decide]
  exact h

/-! ## Claims about BinTable::new (C7) -/

theorem get_str_err {h : Header} {k : Keyword} {e : TableError}
    (hr : get_str h k = .error e) :
    ∃ e2, e = .PropertyNotDefined k e2 := by
  unfold get_str at hr
  split at hr
  · simp at hr
  · simp only [Except.error.injEq] at hr
    exact ⟨_, hr.symm⟩

theorem get_value_err {h : Header} {k : Keyword} {e : TableError}
    (hr : get_value h k = .error e) :
    ∃ e2, e = .PropertyNotDefined k e2 := by
  unfold get_value at hr
  split at hr
  · simp at hr
  · simp only [Except.error.injEq] at hr
    exact ⟨_, hr.symm⟩

theorem get_uint_err {h : Header} {k : Keyword} {e : TableError}
    (hr : get_uint h k = .error e) :
    (∃ e2, e = .PropertyNotDefined k e2) ∨ ∃ v, e = .UnexpectedValue k v := by
  unfold get_uint at hr
  split at hr
  · simp only [Except.error.injEq] at hr
    exact Or.inl ⟨_, hr.symm⟩
  · split at hr
    · split at hr
      · simp only [Except.error.injEq] at hr
        exact Or.inr ⟨_, hr.symm⟩
      · simp at hr
    · simp only [Except.error.injEq] at hr
      exact Or.inl ⟨_, hr.symm⟩

theorem bintable_fields_err {h : Header} {idxs : List Nat}
    {acc : List BinForm × List (List Nat)} {e : TableError}
    (hr : bintable_fields h idxs acc = .error e) :
    (∃ k e2, e = .PropertyNotDefined k e2) ∨
      ∃ k s, e = .InvalidFormString k s := by
  induction idxs generalizing acc with
  | nil => simp [bintable_fields] at hr
  | cons idx rest ih =>
    unfold bintable_fields at hr
    split at hr
    · rename_i e2 heq
      simp only [Except.error.injEq] at hr
      obtain ⟨e3, he3⟩ := get_str_err heq
      exact Or.inl ⟨_, e3, by rw [← hr, he3]⟩
    · split at hr
      · simp only [Except.error.injEq] at hr
        exact Or.inr ⟨_, _, hr.symm⟩
      · exact ih hr

theorem bintable_fields_length {h : Header} {idxs : List Nat}
    {acc : List BinForm × List (List Nat)}
    {res : List BinForm × List (List Nat)}
    (hr : bintable_fields h idxs acc = .ok res) :
    res.1.length = acc.1.length + idxs.length := by
  induction idxs generalizing acc with
  | nil =>
    unfold bintable_fields at hr
    simp only [Except.ok.injEq] at hr
    rw [← hr]
    simp
  | cons idx rest ih =>
    unfold bintable_fields at hr
    split at hr
    · simp at hr
    · split at hr
      · simp at hr
      · have := ih hr
        simp only [List.length_append, List.length_singleton] at this
        simp only [List.length_cons]
        omega

/-- IncorrectExtension comes exactly from an XTENSION string value other
than BINTABLE. -/
theorem bintable_new_ice {h : Header}
    (hr : BinTable.new h = .error .IncorrectExtension) :
    ∃ s, get_str h .XTENSION = .ok s ∧ s ≠ asciiBytes "BINTABLE" := by
  unfold BinTable.new at hr
  split at hr
  · rename_i e heq
    simp only [Except.error.injEq] at hr
    obtain ⟨e2, he2⟩ := get_str_err heq
    exact absurd (hr.symm.trans he2) (by simp)
  · rename_i enc heq
    split at hr
    · rename_i hne
      exact ⟨enc, heq, hne⟩
    · exfalso
      split at hr
      · rename_i e heq2
        simp only [Except.error.injEq] at hr
        obtain ⟨e2, he2⟩ := get_value_err heq2
        exact absurd (hr.symm.trans he2) (by simp)
      · split at hr
        · simp at hr
        · split at hr
          · rename_i e heq2
            simp only [Except.error.injEq] at hr
            obtain ⟨e2, he2⟩ := get_value_err heq2
            exact absurd (hr.symm.trans he2) (by simp)
          · split at hr
            · simp at hr
            · split at hr
              · rename_i e heq2
                simp only [Except.error.injEq] at hr
                obtain ⟨e2, he2⟩ := get_value_err heq2
                exact absurd (hr.symm.trans he2) (by simp)
              · split at hr
                · simp at hr
                · split at hr
                  · rename_i e heq2
                    simp only [Except.error.injEq] at hr
                    rcases get_uint_err heq2 with ⟨e2, he2⟩ | ⟨v, hv⟩ <;>
                      simp_all
                  · split at hr
                    · rename_i e heq2
                      simp only [Except.error.injEq] at hr
                      rcases get_uint_err heq2 with ⟨e2, he2⟩ | ⟨v, hv⟩ <;>
                        simp_all
                    · split at hr
                      · rename_i e heq2
                        simp only [Except.error.injEq] at hr
                        rcases get_uint_err heq2 with ⟨e2, he2⟩ | ⟨v, hv⟩ <;>
                          simp_all
                      · split at hr
                        · rename_i e heq2
                          simp only [Except.error.injEq] at hr
                          rcases get_uint_err heq2 with ⟨e2, he2⟩ | ⟨v, hv⟩ <;>
                            simp_all
                        · rename_i tfraw heqtf
                          cases heqf : bintable_fields h
                              (List.range' 1 ((tfraw % 65536 + 1) % 65536 - 1))
                              ([], []) with
                          | error e =>
                            rw [heqf] at hr
                            simp only [Except.error.injEq] at hr
                            rcases bintable_fields_err heqf with
                              ⟨k2, e2, he2⟩ | ⟨k2, s2, hs2⟩ <;> simp_all
                          | ok pr =>
                            obtain ⟨tformL, ttypeL⟩ := pr
                            rw [heqf] at hr
                            simp at hr

/-- The field bindings of a successful BinTable::new. -/
theorem bintable_new_ok_fields {h : Header} {t : BinTable}
    (hr : BinTable.new h = .ok t) :
    get_uint h (.NAXISn 1) = .ok t.rows ∧
    get_uint h (.NAXISn 2) = .ok t.cols ∧
    get_uint h .PCOUNT = .ok t.heap_size ∧
    ∃ tf, get_uint h .TFIELDS = .ok tf ∧
      (tf < 65535 → t.tform.length = tf) := by
  unfold BinTable.new at hr
  split at hr
  · simp at hr
  · split at hr
    · simp at hr
    · split at hr
      · simp at hr
      · split at hr
        · simp at hr
        · split at hr
          · simp at hr
          · split at hr
            · simp at hr
            · split at hr
              · simp at hr
              · split at hr
                · simp at hr
                · split at hr
                  · simp at hr
                  · rename_i rows heqr
                    split at hr
                    · simp at hr
                    · rename_i cols heqc
                      split at hr
                      · simp at hr
                      · rename_i hs heqh
                        split at hr
                        · simp at hr
                        · rename_i tfraw heqtf
                          split at hr
                          · simp at hr
                          · rename_i tformL ttypeL heqf
                            simp only [Except.ok.injEq] at hr
                            subst hr
                            refine ⟨heqr, heqc, heqh, tfraw, heqtf, ?_⟩
                            intro htf
                            have hlen := bintable_fields_length heqf
                            simp only [List.length_nil, List.length_range']
                              at hlen
                            show tformL.length = tfraw
                            omega

/-- C7: BinTable::new fails with IncorrectExtension exactly when the
XTENSION string value is not BINTABLE, fails with UnexpectedValue naming
the offending keyword and value when BITPIX is not Integer 8, NAXIS is
not Integer 2, or GCOUNT is not Integer 1, and on success takes the row
byte-width (rows field) from NAXIS1, the row count (cols field) from
NAXIS2, the heap byte size from PCOUNT and the field count from
TFIELDS. -/
theorem bintable_new_contract (h : Header) :
    (∀ s, get_str h .XTENSION = .ok s →
      (BinTable.new h = .error .IncorrectExtension ↔
        s ≠ asciiBytes "BINTABLE")) ∧
    (∀ v, get_str h .XTENSION = .ok (asciiBytes "BINTABLE") →
      get_value h .BITPIX = .ok v → v ≠ .Integer 8 →
      BinTable.new h = .error (.UnexpectedValue .BITPIX v)) ∧
    (∀ v, get_str h .XTENSION = .ok (asciiBytes "BINTABLE") →
      get_value h .BITPIX = .ok (.Integer 8) →
      get_value h .NAXIS = .ok v → v ≠ .Integer 2 →
      BinTable.new h = .error (.UnexpectedValue .NAXIS v)) ∧
    (∀ v, get_str h .XTENSION = .ok (asciiBytes "BINTABLE") →
      get_value h .BITPIX = .ok (.Integer 8) →
      get_value h .NAXIS = .ok (.Integer 2) →
      get_value h .GCOUNT = .ok v → v ≠ .Integer 1 →
      BinTable.new h = .error (.UnexpectedValue .GCOUNT v)) ∧
    (∀ t, BinTable.new h = .ok t →
      get_uint h (.NAXISn 1) = .ok t.rows ∧
      get_uint h (.NAXISn 2) = .ok t.cols ∧
      get_uint h .PCOUNT = .ok t.heap_size ∧
      ∃ tf, get_uint h .TFIELDS = .ok tf ∧
        (tf < 65535 → t.tform.length = tf)) := by
  refine ⟨?_, ?_, ?_, ?_, fun t ht => bintable_new_ok_fields ht⟩
  · intro s hx
    constructor
    · intro hr
      obtain ⟨s2, hx2, hne⟩ := bintable_new_ice hr
      rw [hx] at hx2
      simp only [Except.ok.injEq] at hx2
      rw [hx2]
      exact hne
    · intro hne
      unfold BinTable.new
      rw [hx]
      simp [hne]
  · intro v hx hbp hvne
    unfold BinTable.new
    rw [hx]
    simp [hbp, hvne]
  · intro v hx hbp hnx hvne
    unfold BinTable.new
    rw [hx]
    simp [hbp, hnx, hvne]
  · intro v hx hbp hnx hgc hvne
    unfold BinTable.new
    rw [hx]
    simp [hbp, hnx, hgc, hvne]

/-- Witness for C7: the success projections at a concrete BINTABLE
header, and the IncorrectExtension failure at a TABLE header. -/
theorem bintable_new_contract_witness :
    get_uint hBinTab (.NAXISn 1) = .ok
      (⟨11, 7, 0, [⟨1, .E⟩, ⟨16, .A⟩], none, none, none, none, none, none,
        0, none⟩ : BinTable).rows ∧
    BinTable.new
        (⟨[.KeywordRecord
            ⟨.XTENSION, .CharacterString (asciiBytes "TABLE"), none⟩],
          0, 2880⟩ : Header) =
      .error .IncorrectExtension := by
  constructor
  · exact ((bintable_new_contract hBinTab).2.2.2.2
      ⟨11, 7, 0, [⟨1, .E⟩, ⟨16, .A⟩], none, none, none, none, none, none,
        0, none⟩ (by decide)).1
  · exact ((bintable_new_contract _).1 (asciiBytes "TABLE")
      (by decide)).mpr (by decide)

/-! ## Claims about the size computation (C2, C10)

The embedding computes the i64 arithmetic exactly in ℤ and reduces
modulo 2^64 at the final `as usize` cast.  For release-build (wrapping)
i64 semantics this is exact on every input: each wrapping operation
preserves congruence modulo 2^64 and the final cast resolves it. -/

theorem value_of_ok_mem {h : Header} {k : Keyword} {w : Value}
    (hv : h.value_of k = .ok w) : ∃ kr ∈ h.keyword_records, kr.value = w := by
  unfold Header.value_of at hv
  split at hv
  · rename_i kr heq
    simp only [Except.ok.injEq] at hv
    exact ⟨kr, List.mem_of_find?_eq_some heq, hv⟩
  · simp at hv

theorem integer_value_of_ok_mem {h : Header} {k : Keyword} {v : Int}
    (hv : h.integer_value_of k = .ok v) :
    ∃ kr ∈ h.keyword_records, kr.value = .Integer v := by
  unfold Header.integer_value_of at hv
  split at hv
  · rename_i n heq
    simp only [Except.ok.injEq] at hv
    exact hv ▸ value_of_ok_mem heq
  · simp at hv
  · simp at hv

theorem unwrapOr_int_nonneg {h : Header} (k : Keyword) {d : Int}
    (hvals : I64NonnegValues h) (hd : 0 ≤ d) :
    0 ≤ unwrapOr (h.integer_value_of k) d := by
  cases hv : h.integer_value_of k with
  | ok v =>
    obtain ⟨kr, hmem, hval⟩ := integer_value_of_ok_mem hv
    simpa [unwrapOr] using (hvals kr hmem v hval).1
  | error e => simpa [unwrapOr] using hd

theorem mapM_some_mem {α β : Type} (f : α → Option β) :
    ∀ {xs : List α} {vs : List β}, xs.mapM f = some vs →
      ∀ v ∈ vs, ∃ x ∈ xs, f x = some v := by
  intro xs
  induction xs with
  | nil =>
    intro vs hm v hv
    simp only [List.mapM_nil, Option.pure_def, Option.some.injEq] at hm
    rw [← hm] at hv
    simp at hv
  | cons x xs ih =>
    intro vs hm v hv
    simp only [List.mapM_cons, Option.pure_def, Option.bind_eq_bind] at hm
    cases hx : f x with
    | none => rw [hx] at hm; simp at hm
    | some y =>
      rw [hx] at hm
      simp only [Option.some_bind] at hm
      cases hxs : xs.mapM f with
      | none => rw [hxs] at hm; simp at hm
      | some ys =>
        rw [hxs] at hm
        simp only [Option.some_bind, Option.some.injEq] at hm
        rw [← hm] at hv
        rcases List.mem_cons.mp hv with rfl | hv2
        · exact ⟨x, List.mem_cons_self x xs, hx⟩
        · obtain ⟨x2, hx2, hfx2⟩ := ih hxs v hv2
          exact ⟨x2, List.mem_cons_of_mem x hx2, hfx2⟩

theorem foldl_mul_nonneg {vs : List Int} (hvs : ∀ v ∈ vs, 0 ≤ v) :
    ∀ {a : Int}, 0 ≤ a → 0 ≤ vs.foldl (· * ·) a := by
  induction vs with
  | nil => intro a ha; simpa using ha
  | cons v vs ih =>
    intro a ha
    simp only [List.foldl_cons]
    exact ih (fun w hw => hvs w (List.mem_cons_of_mem v hw))
      (mul_nonneg ha (hvs v (List.mem_cons_self v vs)))

theorem foldlM_mul_eq_mapM (h : Header) (l : List Nat)
    (hl : ∀ n ∈ l, n + 1 < 65536) :
    ∀ a : Int,
      (l.foldlM (fun acc n =>
        match h.integer_value_of (.NAXISn ((n + 1) % 65536)) with
        | .ok v => some (acc * v)
        | .error _ => none) a) =
      ((l.mapM (fun n =>
        match h.integer_value_of (.NAXISn (n + 1)) with
        | .ok v => some v
        | .error _ => none) : Option (List Int)).map
          (fun vs => vs.foldl (· * ·) a)) := by
  induction l with
  | nil => intro a; rfl
  | cons x xs ih =>
    intro a
    have hx : (x + 1) % 65536 = x + 1 :=
      Nat.mod_eq_of_lt (hl x (List.mem_cons_self x xs))
    simp only [List.foldlM_cons, List.mapM_cons, hx, Option.pure_def,
      Option.bind_eq_bind]
    cases hg : h.integer_value_of (.NAXISn (x + 1)) with
    | error e => simp
    | ok v =>
      simp only [Option.some_bind]
      rw [ih (fun n hn => hl n (List.mem_cons_of_mem x hn)) (a * v)]
      cases hm : xs.mapM (fun n =>
          match h.integer_value_of (.NAXISn (n + 1)) with
          | .ok v => some v
          | .error _ => none) with
      | none => simp
      | some vs => simp [List.foldl_cons]

theorem naxis_product_eq_spec (h : Header)
    (hnax : unwrapOr (h.integer_value_of .NAXIS) 0 < 65536) :
    h.naxis_product = specNaxisProduct h := by
  simp only [Header.naxis_product, specNaxisProduct]
  split
  · rename_i hpos
    have hbound : ∀ n ∈ List.range
        (unwrapOr (h.integer_value_of .NAXIS) 0).toNat, n + 1 < 65536 := by
      intro n hn
      have h1 := List.mem_range.mp hn
      omega
    exact foldlM_mul_eq_mapM h _ hbound 1
  · rfl

theorem lmle_cast {s : Int} (hs : 0 ≤ s) (hs2 : s < 2 ^ 63) :
    Int.ofNat (lmle s.toNat (FITS_BLOCK_SIZE * 8)) =
      specRoundUp s (FITS_BLOCK_SIZE * 8) := by
  simp only [lmle, specRoundUp, Int.ofNat_eq_coe]
  unfold FITS_BLOCK_SIZE KEYWORD_LINE_LENGTH
  split_ifs <;> push_cast <;> omega

/-- C2 as stated fails on the code: with a negative NAXIS1 the computed
bit count is the doubly wrapped usize value 3584 (the i64-to-usize cast
gives 2^64 - 24, and the round-up multiply wraps again), not the spec
formula rounded up, which is 0. -/
theorem data_array_bits_counterexample :
    specDataArrayBits hNegAxis = some 0 ∧
    hNegAxis.data_array_bits = some 3584 ∧
    Option.map Int.ofNat hNegAxis.data_array_bits ≠
      specDataArrayBits hNegAxis := by
  refine ⟨by decide, by decide, ?_⟩
  intro hcontra
  rw [show hNegAxis.data_array_bits = some 3584 from by decide] at hcontra
  rw [show specDataArrayBits hNegAxis = some 0 from by decide] at hcontra
  simp at hcontra

/-- C2 (amended): data_array_bits equals the specification formula
rounded up to a block, for every header whose Integer values are
nonnegative i64 values, whose NAXIS value stays below 2^16 (the index
wrap of the (n+1) as u16 cast), and whose unrounded size stays below
2^63 (no i64/usize overflow). -/
theorem data_array_bits_spec (h : Header) (hvals : I64NonnegValues h)
    (hnax : unwrapOr (h.integer_value_of .NAXIS) 0 < 65536)
    (hsize : ∀ s, specDataArraySize h = some s → s < 2 ^ 63) :
    Option.map Int.ofNat h.data_array_bits =
      specDataArrayBits h := by
  have hprod := naxis_product_eq_spec h hnax
  have hb : (0 : Int) ≤
      ((unwrapOr (h.integer_value_of .BITPIX) 0).natAbs : Int) :=
    Int.ofNat_nonneg _
  have hpn : ∀ p, specNaxisProduct h = some p → 0 ≤ p := by
    intro p hp
    simp only [specNaxisProduct] at hp
    split at hp
    · cases hm : (List.range
          (unwrapOr (h.integer_value_of .NAXIS) 0).toNat).mapM
          (fun n =>
            match h.integer_value_of (.NAXISn (n + 1)) with
            | .ok v => some v
            | .error _ => none) with
      | none => rw [hm] at hp; simp at hp
      | some vs =>
        rw [hm] at hp
        simp only [Option.map_some', Option.some.injEq] at hp
        have hvsnn : ∀ v ∈ vs, 0 ≤ v := by
          intro v hv
          obtain ⟨x, hx, hfx⟩ := mapM_some_mem _ hm v hv
          revert hfx
          cases hg : h.integer_value_of (.NAXISn (x + 1)) with
          | ok w =>
            intro hfx
            simp only [Option.some.injEq] at hfx
            obtain ⟨kr, hmem, hval⟩ := integer_value_of_ok_mem hg
            exact hfx ▸ (hvals kr hmem w hval).1
          | error e => intro hfx; simp at hfx
        exact hp ▸ foldl_mul_nonneg hvsnn (by norm_num)
    · simp only [Option.some.injEq] at hp
      omega
  simp only [Header.data_array_bits, specDataArrayBits, specDataArraySize]
  split
  · rename_i hpm
    unfold Header.primary_data_array_size
    rw [hprod]
    cases hsp : specNaxisProduct h with
    | none => simp
    | some p =>
      simp only [Option.map_some', Option.some.injEq]
      set b : Int :=
        ((unwrapOr (h.integer_value_of .BITPIX) 0).natAbs : Int) with hbdef
      have hs0 : 0 ≤ b * p := mul_nonneg hb (hpn p hsp)
      have hslt : b * p < 2 ^ 63 := by
        apply hsize
        simp only [specDataArraySize]
        rw [if_pos hpm, hsp]
        rfl
      have hcast : castUsize (b * p) = (b * p).toNat := by
        unfold castUsize
        rw [Int.emod_eq_of_lt hs0 (by omega)]
      rw [hcast, lmle_cast hs0 hslt]
  · rename_i hpm
    unfold Header.extention_data_array_size
    rw [hprod]
    cases hsp : specNaxisProduct h with
    | none => simp
    | some p =>
      simp only [Option.map_some', Option.some.injEq]
      set b : Int :=
        ((unwrapOr (h.integer_value_of .BITPIX) 0).natAbs : Int) with hbdef
      set g : Int := unwrapOr (h.integer_value_of .GCOUNT) 1 with hgdef
      set pc : Int := unwrapOr (h.integer_value_of .PCOUNT) 0 with hpcdef
      have hg0 : 0 ≤ g := unwrapOr_int_nonneg _ hvals (by norm_num)
      have hpc0 : 0 ≤ pc := unwrapOr_int_nonneg _ hvals le_rfl
      have hs0 : 0 ≤ b * g * (pc + p) :=
        mul_nonneg (mul_nonneg hb hg0) (by have := hpn p hsp; omega)
      have hslt : b * g * (pc + p) < 2 ^ 63 := by
        apply hsize
        simp only [specDataArraySize]
        rw [if_neg hpm, hsp]
        rfl
      have hcast : castUsize (b * g * (pc + p)) = (b * g * (pc + p)).toNat := by
        unfold castUsize
        rw [Int.emod_eq_of_lt hs0 (by omega)]
      rw [hcast, lmle_cast hs0 hslt]

/-- Witness for the amended C2 at the primary test header of the Rust
test suite: BITPIX 8, NAXIS 2, NAXIS1 3, NAXIS2 5, one block. -/
theorem data_array_bits_spec_witness :
    Option.map Int.ofNat
        (⟨[.KeywordRecord ⟨.SIMPLE, .Logical true, none⟩,
           .KeywordRecord ⟨.BITPIX, .Integer 8, none⟩,
           .KeywordRecord ⟨.NAXIS, .Integer 2, none⟩,
           .KeywordRecord ⟨.NAXISn 1, .Integer 3, none⟩,
           .KeywordRecord ⟨.NAXISn 2, .Integer 5, none⟩], 0, 480⟩ :
          Header).data_array_bits =
      specDataArrayBits
        ⟨[.KeywordRecord ⟨.SIMPLE, .Logical true, none⟩,
          .KeywordRecord ⟨.BITPIX, .Integer 8, none⟩,
          .KeywordRecord ⟨.NAXIS, .Integer 2, none⟩,
          .KeywordRecord ⟨.NAXISn 1, .Integer 3, none⟩,
          .KeywordRecord ⟨.NAXISn 2, .Integer 5, none⟩], 0, 480⟩ :=
  data_array_bits_spec _
    (by
      intro kr hmem n hval
      fin_cases hmem <;> cases hval <;> decide)
    (by decide)
    (by
      intro s hs
      rw [show specDataArraySize
        ⟨[.KeywordRecord ⟨.SIMPLE, .Logical true, none⟩,
          .KeywordRecord ⟨.BITPIX, .Integer 8, none⟩,
          .KeywordRecord ⟨.NAXIS, .Integer 2, none⟩,
          .KeywordRecord ⟨.NAXISn 1, .Integer 3, none⟩,
          .KeywordRecord ⟨.NAXISn 2, .Integer 5, none⟩], 0, 480⟩ =
        some 120 from by decide] at hs
      simp only [Option.some.injEq] at hs
      rw [← hs]
      decide)

/-! ## C9: decode then re-render -/


/-- Every static-table entry's Display text is exactly its table name. -/
theorem static_display_name :
    ∀ q ∈ static_table, Keyword.display q.2 = q.1 := by decide

/-- The keyword stored by a successful value_keyword_record decode is the
from_str classification of the first eight bytes of the line. -/
theorem value_keyword_record_keyword {l rest : List Nat} {r : KeywordRecord}
    (h : value_keyword_record l = some (rest, .KeywordRecord r)) :
    Keyword.from_str (l.take 8) = .ok r.keyword := by
  have hlen : 80 ≤ l.length := by
    by_contra hc
    simp only [value_keyword_record, parse_keyword_line, exact_length,
      KEYWORD_LINE_LENGTH, if_neg hc] at h
    exact absurd h (by simp)
  simp only [value_keyword_record, parse_keyword_line, exact_length,
    KEYWORD_LINE_LENGTH, if_pos hlen] at h
  cases hp : pand keyword_field (pand value_indicator
      (pand (ws (popt value)) (popt comment))) (l.take 80) with
  | none =>
    simp only [hp] at h
    exact absurd h (by simp)
  | some pr =>
    obtain ⟨rr, k, a, v, c⟩ := pr
    simp only [hp] at h
    split at h
    · simp only [Option.some.injEq, Prod.mk.injEq,
        HeaderRecord.KeywordRecord.injEq] at h
      obtain ⟨-, hrec⟩ := h
      simp only [pand] at hp
      cases hkf : keyword_field (l.take 80) with
      | none =>
        simp only [hkf] at hp
        exact absurd hp (by simp)
      | some kf =>
        obtain ⟨r1, k1⟩ := kf
        simp only [hkf] at hp
        have h8 : 8 ≤ (l.take 80).length := by
          simp only [List.length_take]
          omega
        have ht : (l.take 80).take 8 = l.take 8 := by
          rw [List.take_take]
          norm_num
        simp only [keyword_field, ptake, if_pos h8, ht] at hkf
        split at hkf
        · split at hkf
          · rename_i k2 hfs
            simp only [Option.some.injEq, Prod.mk.injEq] at hkf
            split at hp
            · simp only [Option.some.injEq, Prod.mk.injEq] at hp
              rw [hfs, hkf.2, hp.2.1, ← hrec]
            · exact absurd hp (by simp)
          · exact absurd hkf (by simp)
        · exact absurd hkf (by simp)
    · exact absurd h (by simp)

/-- C9 as stated fails on the code: decoding the KEPLERID line yields
Integer(200164267), and re-rendering prints the Debug form
"Integer(200164267)" in the value position, not the original value text
"200164267"; the rendered line does not even decode back as a
value-keyword line. -/
theorem display_roundtrip_counterexample :
    value_keyword_record lineKEPLERID =
      some ([], .KeywordRecord ⟨.KEPLERID, .Integer 200164267, none⟩) ∧
    KeywordRecord.display ⟨.KEPLERID, .Integer 200164267, none⟩ =
      asciiBytes "KEPLERID= Integer(200164267)/" ∧
    (KeywordRecord.display ⟨.KEPLERID, .Integer 200164267, none⟩).take 19 ≠
      lineKEPLERID.take 19 ∧
    value_keyword_record
      (KeywordRecord.display ⟨.KEPLERID, .Integer 200164267, none⟩ ++
        List.replicate 51 32) = none := by
  refine ⟨by decide, by decide, by decide, by decide⟩

/-- C9 (amended): decode then re-render reproduces the keyword name but
renders the value in Rust Debug form: for every 80-byte value-keyword
line whose trimmed keyword field hits the static table, the re-rendered
record is exactly the trimmed original keyword name, the equals-space
indicator, the Debug form of the decoded value, a slash, and the decoded
comment (empty when absent).  The original value text itself is not
reproduced (see the counterexample). -/
theorem display_roundtrip (l rest : List Nat) (r : KeywordRecord)
    (q : List Nat × Keyword)
    (hdec : value_keyword_record l = some (rest, .KeywordRecord r))
    (hstat : static_table.find? (fun p => p.1 == trim_end (l.take 8)) =
      some q) :
    KeywordRecord.display r =
      trim_end (l.take 8) ++ asciiBytes "= " ++ r.value.debugFmt ++
        asciiBytes "/" ++ r.comment.getD [] := by
  have hk := value_keyword_record_keyword hdec
  have hfs : Keyword.from_str (l.take 8) = .ok q.2 := by
    simp only [Keyword.from_str, hstat]
  have hkq : r.keyword = q.2 := by
    rw [hfs] at hk
    exact (Except.ok.injEq _ _ ▸ hk).symm
  have hmem := List.mem_of_find?_eq_some hstat
  have hpred := List.find?_some hstat
  have hname : q.1 = trim_end (l.take 8) := by
    simpa using hpred
  have hdisp : Keyword.display r.keyword = trim_end (l.take 8) := by
    rw [hkq, static_display_name q hmem, hname]
  simp only [KeywordRecord.display, hdisp]

theorem display_roundtrip_witness :
    KeywordRecord.display ⟨.KEPLERID, .Integer 200164267, none⟩ =
      trim_end (lineKEPLERID.take 8) ++ asciiBytes "= " ++
        Value.debugFmt (.Integer 200164267) ++ asciiBytes "/" ++
        (none : Option (List Nat)).getD [] :=
  display_roundtrip lineKEPLERID []
    ⟨.KEPLERID, .Integer 200164267, none⟩
    (asciiBytes "KEPLERID", .KEPLERID) (by decide) (by decide)

/-! ## C10: a missing BITPIX never fails the size computation -/


/-- C10 as stated fails on the code: a header without BITPIX can still
make the size computation fail fatally (missing NAXIS1 with NAXIS = 1),
so data_array_bits is not 0. -/
theorem missing_bitpix_counterexample :
    hNoBitpix.integer_value_of .BITPIX = .error .KeywordNotPresent ∧
    hNoBitpix.data_array_bits ≠ some 0 ∧
    hNoBitpix.next_header ≠ some (hNoBitpix.start + hNoBitpix.length) := by
  decide

/-- C10 (amended): whenever BITPIX retrieval fails (missing record or
non-Integer value) but naxis_product itself succeeds, the 0 default for
BITPIX zeroes both the primary and the extension formula: data_array_bits
returns 0 and next_header is exactly start + length.  The lookup failure
on BITPIX never surfaces. -/
theorem missing_bitpix_gives_zero (h : Header) (e : ValueRetrievalError)
    (p : Int) (hbp : h.integer_value_of .BITPIX = .error e)
    (hnp : h.naxis_product = some p) :
    h.data_array_bits = some 0 ∧
    h.next_header = some (h.start + h.length) := by
  have hz : unwrapOr (h.integer_value_of .BITPIX) 0 = 0 := by
    rw [hbp]; rfl
  have hbits : h.data_array_bits = some 0 := by
    simp only [Header.data_array_bits, Header.primary_data_array_size,
      Header.extention_data_array_size, hnp, hz, Option.map_some',
      Int.natAbs_zero, Nat.cast_zero, zero_mul]
    split <;> norm_num [castUsize, lmle]
  refine ⟨hbits, ?_⟩
  simp [Header.next_header, hbits, Header.header_end_position]

theorem missing_bitpix_gives_zero_witness :
    (⟨[], 7, 2880⟩ : Header).data_array_bits = some 0 ∧
    (⟨[], 7, 2880⟩ : Header).next_header =
      some ((⟨[], 7, 2880⟩ : Header).start + (⟨[], 7, 2880⟩ : Header).length) :=
  missing_bitpix_gives_zero ⟨[], 7, 2880⟩ .KeywordNotPresent 0
    (by decide) (by decide)

/-! ## C5: chunking invariance of the streaming assembler -/


/-- A keyword line parses the same with anything appended: the grammar
reads exactly 80 bytes, so only the remainder changes. -/
theorem parse_keyword_line_append {α : Type}
    {inner : List Nat → Option (List Nat × α)} {l : List Nat}
    (hlen : l.length = 80) (rest : List Nat) :
    parse_keyword_line inner (l ++ rest) =
      (parse_keyword_line inner l).map (fun p => (rest, p.2)) := by
  have h1 : (l ++ rest).take 80 = l := by
    rw [List.take_append_eq_append_take,
      List.take_of_length_le (le_of_eq hlen), hlen]
    simp
  have h2 : (l ++ rest).drop 80 = rest := by
    rw [List.drop_append_eq_append_drop,
      List.drop_eq_nil_of_le (le_of_eq hlen), hlen]
    simp
  simp only [parse_keyword_line, exact_length, KEYWORD_LINE_LENGTH]
  rw [if_pos (by simp; omega), if_pos (by omega), h1, h2,
    List.take_of_length_le (le_of_eq hlen)]
  cases hG : inner l with
  | none => simp
  | some p =>
    obtain ⟨r0, o⟩ := p
    by_cases hr0 : r0.dropWhile (fun c => c = 32) = [] <;>
      simp [hr0]

theorem palt_map {α : Type} {p q : List Nat → Option (List Nat × α)}
    {x y : List Nat} {f : List Nat × α → List Nat × α}
    (hp : p y = (p x).map f) (hq : q y = (q x).map f) :
    palt p q y = (palt p q x).map f := by
  unfold palt
  cases hpx : p x with
  | some r => simp [hp, hpx]
  | none => simp [hp, hpx, hq]

/-- header_record localizes to the first 80 bytes of the input. -/
theorem header_record_append {l : List Nat} (hlen : l.length = 80)
    (rest : List Nat) :
    header_record (l ++ rest) =
      (header_record l).map (fun p => (rest, p.2)) := by
  have h1 : commentary_keyword_record (l ++ rest) =
      (commentary_keyword_record l).map (fun p => (rest, p.2)) :=
    parse_keyword_line_append hlen rest
  have h2 : value_keyword_record (l ++ rest) =
      (value_keyword_record l).map (fun p => (rest, p.2)) :=
    parse_keyword_line_append hlen rest
  have h3 : end_record (l ++ rest) =
      (end_record l).map (fun p => (rest, p.2)) :=
    parse_keyword_line_append hlen rest
  have h4 : blankfield_record (l ++ rest) =
      (blankfield_record l).map (fun p => (rest, p.2)) :=
    parse_keyword_line_append hlen rest
  exact palt_map (palt_map h1 h2) (palt_map h3 h4)

/-- No record parses from fewer than 80 bytes. -/
theorem header_record_short {input : List Nat} (h : input.length < 80) :
    header_record input = none := by
  have hp : ∀ {α : Type} (inner : List Nat → Option (List Nat × α)),
      parse_keyword_line inner input = none := by
    intro α inner
    simp only [parse_keyword_line, exact_length, KEYWORD_LINE_LENGTH]
    rw [if_neg (by omega)]
  unfold header_record keyword_record palt commentary_keyword_record
  unfold value_keyword_record end_record blankfield_record
  simp only [hp]

theorem lineRecordOk_length {N i : Nat} {l : List Nat}
    (h : lineRecordOk N i l) : l.length = 80 := by
  have hs : ∃ r, header_record l = some ([], r) := by
    unfold lineRecordOk at h
    split at h
    · obtain ⟨k, hk⟩ := h
      exact ⟨_, hk⟩
    · split at h
      · exact ⟨_, h⟩
      · obtain ⟨c, hc⟩ := h
        exact ⟨_, hc⟩
  obtain ⟨r, hr⟩ := hs
  obtain ⟨hrem, hlen⟩ := header_record_consumes hr
  have := congrArg List.length hrem
  simp only [List.length_nil, List.length_drop] at this
  omega

/-- Simulation of the chunked feeding loop over a well-shaped stream:
from any point i short of the completion line count c, the loop reaches
the unique Complete outcome, and its remainder followed by the unfed
chunks is exactly the stream past the completion point. -/
theorem feed_sim (lines : List (List Nat)) (N c : Nat)
    (hshape : ∀ i (hi : i < lines.length),
      lineRecordOk N i (lines.get ⟨i, hi⟩))
    (hc1 : N + 1 ≤ c) (hc2 : 36 ∣ c)
    (hc3 : ∀ j, N + 1 ≤ j → 36 ∣ j → c ≤ j)
    (hclen : c ≤ lines.length) :
    ∀ fuel i (st : HeaderParser) (buf : List Nat) (cs : List (List Nat)),
      st.parse_more = decide (i ≤ N) →
      st.consumed = 80 * i →
      buf ++ cs.flatten = (lines.drop i).flatten →
      i < c → c - i + cs.length < fuel →
      ∃ rem unused, feedChunksF fuel st buf cs = some (rem, unused) ∧
        rem ++ unused.flatten = (lines.drop c).flatten ∧
        unused.length ≤ cs.length := by
  intro fuel
  induction fuel with
  | zero =>
    intro i st buf cs _ _ _ _ hf
    omega
  | succ fuel ih =>
    intro i st buf cs hpm hcons hbc hic hf
    have hi_len : i < lines.length := lt_of_lt_of_le hic hclen
    have hlen80 : (lines.get ⟨i, hi_len⟩).length = 80 :=
      lineRecordOk_length (hshape i hi_len)
    have hdropc : lines.drop i =
        lines.get ⟨i, hi_len⟩ :: lines.drop (i + 1) :=
      List.drop_eq_getElem_cons hi_len
    rw [hdropc, List.flatten_cons] at hbc
    by_cases hb : 80 ≤ buf.length
    · have htake : buf.take 80 = lines.get ⟨i, hi_len⟩ := by
        have h1 := congrArg (List.take 80) hbc
        rw [List.take_append_eq_append_take, List.take_append_eq_append_take,
          List.take_of_length_le (le_of_eq hlen80)] at h1
        rw [show 80 - buf.length = 0 from by omega, hlen80] at h1
        simpa using h1
      have hdrop : buf.drop 80 ++ cs.flatten =
          (lines.drop (i + 1)).flatten := by
        have h1 := congrArg (List.drop 80) hbc
        rw [List.drop_append_eq_append_drop, List.drop_append_eq_append_drop,
          List.drop_eq_nil_of_le (le_of_eq hlen80)] at h1
        rw [show 80 - buf.length = 0 from by omega, hlen80] at h1
        simpa using h1
      have hbufeq : buf = lines.get ⟨i, hi_len⟩ ++ buf.drop 80 := by
        conv_lhs => rw [← List.take_append_drop 80 buf]
        rw [htake]
      have hrecbuf : ∀ {r : HeaderRecord},
          header_record (lines.get ⟨i, hi_len⟩) = some ([], r) →
          header_record buf = some (buf.drop 80, r) := by
        intro r hr
        conv_lhs => rw [hbufeq]
        rw [header_record_append hlen80, hr]
        rfl
      obtain ⟨out, st2, hres⟩ :
          ∃ out st2, st.parse_record buf = (out, st2) := ⟨_, _, rfl⟩
      have hsh := hshape i hi_len
      unfold lineRecordOk at hsh
      have hn80 : buf.length - (buf.drop 80).length = 80 := by
        simp only [List.length_drop]
        omega
      rcases lt_trichotomy i N with hiN | hiN | hiN
      · -- a KeywordRecord line before the End record
        rw [if_pos hiN] at hsh
        obtain ⟨k, hk⟩ := hsh
        have hhr := hrecbuf hk
        have hpmt : st.parse_more = true := by
          rw [hpm]
          exact decide_eq_true (by omega)
        rcases parse_record_cases hres with ⟨hn, -, -⟩ |
          ⟨remainder, record, pm, heq, hpush, hiff, -⟩ |
          ⟨remainder, record, heq, hpmf, hnb, -, -⟩
        · rw [hhr] at hn
          exact absurd hn (by simp)
        · have hdet := hhr.symm.trans heq
          simp only [Option.some.injEq, Prod.mk.injEq] at hdet
          obtain ⟨hrem, hrecd⟩ := hdet
          subst hrem
          have hpmv : pm = true := by
            cases pm
            · rcases hiff.mp rfl with hrE | hpmf
              · rw [← hrecd] at hrE
                exact absurd hrE (by simp)
              · rw [hpmt] at hpmf
                exact absurd hpmf (by simp)
            · rfl
          obtain ⟨hst2, hout⟩ := push_spec hpush
          rw [hn80] at hst2 hout
          have houtok : out = .Ok (buf.drop 80) := by
            rw [hout, hpmv]
            simp [HeaderParser.is_complete]
          have hstep : feedChunksF (fuel + 1) st buf cs =
              feedChunksF fuel st2 (buf.drop 80) cs := by
            rw [houtok] at hres
            simp only [feedChunksF]
            rw [hres]
          rw [hstep]
          apply ih (i + 1) st2 (buf.drop 80) cs
          · rw [hst2]
            show pm = decide (i + 1 ≤ N)
            rw [hpmv]
            exact (decide_eq_true (by omega)).symm
          · rw [hst2]
            show st.consumed + 80 = 80 * (i + 1)
            rw [hcons]
            ring
          · exact hdrop
          · omega
          · omega
        · rw [hpmt] at hpmf
          exact absurd hpmf (by simp)
      · -- the End record line
        rw [if_neg (by omega), if_pos hiN] at hsh
        have hhr := hrecbuf hsh
        have hpmt : st.parse_more = true := by
          rw [hpm]
          exact decide_eq_true (by omega)
        rcases parse_record_cases hres with ⟨hn, -, -⟩ |
          ⟨remainder, record, pm, heq, hpush, hiff, -⟩ |
          ⟨remainder, record, heq, hpmf, hnb, -, -⟩
        · rw [hhr] at hn
          exact absurd hn (by simp)
        · have hdet := hhr.symm.trans heq
          simp only [Option.some.injEq, Prod.mk.injEq] at hdet
          obtain ⟨hrem, hrecd⟩ := hdet
          subst hrem
          have hpmv : pm = false := hiff.mpr (Or.inl hrecd.symm)
          obtain ⟨hst2, hout⟩ := push_spec hpush
          rw [hn80] at hst2 hout
          by_cases h36 : 36 ∣ (i + 1)
          · have hceq : c = i + 1 :=
              le_antisymm (hc3 _ (by omega) h36) (by omega)
            have hm : (80 * i + 80) % 2880 = 0 := by omega
            have houtc : out = .Complete (buf.drop 80) := by
              rw [hout, hpmv]
              simp [HeaderParser.is_complete, FITS_BLOCK_SIZE,
                KEYWORD_LINE_LENGTH, hcons, hm]
            have hstep : feedChunksF (fuel + 1) st buf cs =
                some (buf.drop 80, cs) := by
              rw [houtc] at hres
              simp only [feedChunksF]
              rw [hres]
            refine ⟨buf.drop 80, cs, hstep, ?_, le_refl _⟩
            rw [hceq]
            exact hdrop
          · have hm : ¬(80 * i + 80) % 2880 = 0 := by omega
            have houtok : out = .Ok (buf.drop 80) := by
              rw [hout, hpmv]
              simp [HeaderParser.is_complete, FITS_BLOCK_SIZE,
                KEYWORD_LINE_LENGTH, hcons, hm]
            have hstep : feedChunksF (fuel + 1) st buf cs =
                feedChunksF fuel st2 (buf.drop 80) cs := by
              rw [houtok] at hres
              simp only [feedChunksF]
              rw [hres]
            rw [hstep]
            apply ih (i + 1) st2 (buf.drop 80) cs
            · rw [hst2]
              show pm = decide (i + 1 ≤ N)
              rw [hpmv]
              exact (decide_eq_false (by omega)).symm
            · rw [hst2]
              show st.consumed + 80 = 80 * (i + 1)
              rw [hcons]
              ring
            · exact hdrop
            · omega
            · omega
        · rw [hpmt] at hpmf
          exact absurd hpmf (by simp)
      · -- a BlankRecord line after the End record
        rw [if_neg (by omega), if_neg (by omega)] at hsh
        obtain ⟨cm, hcm⟩ := hsh
        have hhr := hrecbuf hcm
        have hpmf0 : st.parse_more = false := by
          rw [hpm]
          exact decide_eq_false (by omega)
        rcases parse_record_cases hres with ⟨hn, -, -⟩ |
          ⟨remainder, record, pm, heq, hpush, hiff, -⟩ |
          ⟨remainder, record, heq, hpmf, hnb, -, -⟩
        · rw [hhr] at hn
          exact absurd hn (by simp)
        · have hdet := hhr.symm.trans heq
          simp only [Option.some.injEq, Prod.mk.injEq] at hdet
          obtain ⟨hrem, hrecd⟩ := hdet
          subst hrem
          have hpmv : pm = false := hiff.mpr (Or.inr hpmf0)
          obtain ⟨hst2, hout⟩ := push_spec hpush
          rw [hn80] at hst2 hout
          by_cases h36 : 36 ∣ (i + 1)
          · have hceq : c = i + 1 :=
              le_antisymm (hc3 _ (by omega) h36) (by omega)
            have hm : (80 * i + 80) % 2880 = 0 := by omega
            have houtc : out = .Complete (buf.drop 80) := by
              rw [hout, hpmv]
              simp [HeaderParser.is_complete, FITS_BLOCK_SIZE,
                KEYWORD_LINE_LENGTH, hcons, hm]
            have hstep : feedChunksF (fuel + 1) st buf cs =
                some (buf.drop 80, cs) := by
              rw [houtc] at hres
              simp only [feedChunksF]
              rw [hres]
            refine ⟨buf.drop 80, cs, hstep, ?_, le_refl _⟩
            rw [hceq]
            exact hdrop
          · have hm : ¬(80 * i + 80) % 2880 = 0 := by omega
            have houtok : out = .Ok (buf.drop 80) := by
              rw [hout, hpmv]
              simp [HeaderParser.is_complete, FITS_BLOCK_SIZE,
                KEYWORD_LINE_LENGTH, hcons, hm]
            have hstep : feedChunksF (fuel + 1) st buf cs =
                feedChunksF fuel st2 (buf.drop 80) cs := by
              rw [houtok] at hres
              simp only [feedChunksF]
              rw [hres]
            rw [hstep]
            apply ih (i + 1) st2 (buf.drop 80) cs
            · rw [hst2]
              show pm = decide (i + 1 ≤ N)
              rw [hpmv]
              exact (decide_eq_false (by omega)).symm
            · rw [hst2]
              show st.consumed + 80 = 80 * (i + 1)
              rw [hcons]
              ring
            · exact hdrop
            · omega
            · omega
        · have hdet := hhr.symm.trans heq
          simp only [Option.some.injEq, Prod.mk.injEq] at hdet
          exact absurd hdet.2.symm (hnb cm)
    · -- buffer shorter than one line
      have hhrn : header_record buf = none := header_record_short (by omega)
      have hpr : st.parse_record buf = (.Error, st) := by
        unfold HeaderParser.parse_record
        rw [hhrn]
      cases cs with
      | nil =>
        exfalso
        simp only [List.flatten_nil, List.append_nil] at hbc
        have := congrArg List.length hbc
        simp only [List.length_append, hlen80] at this
        omega
      | cons c0 cs2 =>
        have hstep : feedChunksF (fuel + 1) st buf (c0 :: cs2) =
            feedChunksF fuel st (buf ++ c0) cs2 := by
          simp only [feedChunksF]
          rw [hpr]
        rw [hstep]
        obtain ⟨rem, unused, h1, h2, h3⟩ := ih i st (buf ++ c0) cs2 hpm hcons
          (by rw [List.append_assoc, ← List.flatten_cons, hdropc,
                List.flatten_cons]
              exact hbc)
          hic (by simp only [List.length_cons] at hf; omega)
        refine ⟨rem, unused, h1, h2, ?_⟩
        simp only [List.length_cons]
        omega

theorem flatten_length_80 {ls : List (List Nat)}
    (h : ∀ l ∈ ls, l.length = 80) : ls.flatten.length = 80 * ls.length := by
  induction ls with
  | nil => simp
  | cons a t ih =>
    simp only [List.flatten_cons, List.length_append, List.length_cons]
    rw [h a (by simp), ih (fun l hl => h l (by simp [hl]))]
    ring

/-- A stream of N keyword lines, one End line and M blank lines has the
C5 line shape at every index. -/
theorem stream_shape (kws : List (List Nat)) (e : List Nat)
    (blanks : List (List Nat))
    (hkw : ∀ l ∈ kws, ∃ k, header_record l = some ([], .KeywordRecord k))
    (hend : header_record e = some ([], .EndRecord))
    (hbl : ∀ l ∈ blanks, ∃ c, header_record l = some ([], .BlankRecord c)) :
    ∀ i (hi : i < (kws ++ e :: blanks).length),
      lineRecordOk kws.length i ((kws ++ e :: blanks).get ⟨i, hi⟩) := by
  intro i hi
  have hlentot : (kws ++ e :: blanks).length =
      kws.length + 1 + blanks.length := by
    simp only [List.length_append, List.length_cons]
    omega
  unfold lineRecordOk
  rcases lt_trichotomy i kws.length with h | h | h
  · rw [if_pos h]
    have hget : (kws ++ e :: blanks).get ⟨i, hi⟩ = kws.get ⟨i, h⟩ := by
      simp [List.getElem_append_left, h]
    rw [hget]
    exact hkw _ (List.get_mem _ _ _)
  · rw [if_neg (by omega), if_pos h]
    have hget : (kws ++ e :: blanks).get ⟨i, hi⟩ = e := by
      subst h
      simp only [List.get_eq_getElem]
      rw [List.getElem_append_right (le_refl _)]
      simp [Nat.sub_self]
    rw [hget]
    exact hend
  · rw [if_neg (by omega), if_neg (by omega)]
    have hj : i - kws.length - 1 < blanks.length := by omega
    have hget : (kws ++ e :: blanks).get ⟨i, hi⟩ =
        blanks.get ⟨i - kws.length - 1, hj⟩ := by
      have hki : kws.length ≤ i := le_of_lt h
      have hx : i - kws.length < (e :: blanks).length := by
        simp only [List.length_cons]
        omega
      have h1 : (kws ++ e :: blanks).get ⟨i, hi⟩ =
          (e :: blanks).get ⟨i - kws.length, hx⟩ := by
        simp only [List.get_eq_getElem]
        rw [List.getElem_append_right hki]
      have h2 : (⟨i - kws.length, hx⟩ : Fin (e :: blanks).length) =
          ⟨(i - kws.length - 1) + 1, by
            simp only [List.length_cons]
            omega⟩ :=
        Fin.ext (show i - kws.length = i - kws.length - 1 + 1 by omega)
      rw [h1, h2]
      rfl
    rw [hget]
    exact hbl _ (List.get_mem _ _ _)

/-- C5: chunking invariance.  For a stream of N KeywordRecord lines, one
EndRecord line and M BlankRecord lines with 80×(N+1+M) a multiple of
2880, feeding the bytes to a fresh assembler in any chunking reaches
exactly one Complete outcome (the loop stops at the first one, and one
is always reached), and the Complete remainder extended by the not yet
fed chunks equals the remainder of feeding the whole stream in a single
call. -/
theorem chunking_invariance (kws : List (List Nat)) (e : List Nat)
    (blanks : List (List Nat)) (chunks : List (List Nat))
    (hkw : ∀ l ∈ kws, ∃ k, header_record l = some ([], .KeywordRecord k))
    (hend : header_record e = some ([], .EndRecord))
    (hbl : ∀ l ∈ blanks, ∃ c, header_record l = some ([], .BlankRecord c))
    (hdiv : 2880 ∣ 80 * (kws.length + 1 + blanks.length))
    (hjoin : chunks.flatten = (kws ++ e :: blanks).flatten) :
    ∃ rem unused remS,
      feedChunks HeaderParser.new [] chunks = some (rem, unused) ∧
      feedChunks HeaderParser.new ((kws ++ e :: blanks).flatten) [] =
        some (remS, []) ∧
      remS = rem ++ unused.flatten := by
  have hshape := stream_shape kws e blanks hkw hend hbl
  have hlen : (kws ++ e :: blanks).length =
      kws.length + 1 + blanks.length := by
    simp only [List.length_append, List.length_cons]
    omega
  have hc1 : kws.length + 1 ≤ 36 * ((kws.length + 36) / 36) := by omega
  have hc2 : 36 ∣ 36 * ((kws.length + 36) / 36) :=
    Dvd.intro _ rfl
  have hc3 : ∀ j, kws.length + 1 ≤ j → 36 ∣ j →
      36 * ((kws.length + 36) / 36) ≤ j := by
    intro j h1 h2
    omega
  have hclen : 36 * ((kws.length + 36) / 36) ≤ (kws ++ e :: blanks).length := by
    have h36len : 36 ∣ (kws ++ e :: blanks).length := by
      rw [hlen]
      omega
    exact hc3 _ (by omega) h36len
  have hall80 : ∀ l ∈ kws ++ e :: blanks, l.length = 80 := by
    intro l hl
    obtain ⟨n, hn⟩ := List.mem_iff_get.mp hl
    rw [← hn]
    exact lineRecordOk_length (hshape n.1 n.2)
  have hstream_len : (kws ++ e :: blanks).flatten.length =
      80 * (kws ++ e :: blanks).length :=
    flatten_length_80 hall80
  have hsum : (chunks.map List.length).sum =
      80 * (kws ++ e :: blanks).length := by
    rw [← List.length_flatten, hjoin, hstream_len]
  obtain ⟨rem, unused, h1, h2, h3⟩ :=
    feed_sim (kws ++ e :: blanks) kws.length (36 * ((kws.length + 36) / 36))
      hshape hc1 hc2 hc3 hclen
      (([] : List Nat).length + (chunks.map List.length).sum +
        chunks.length + 1)
      0 HeaderParser.new [] chunks
      (by simp [HeaderParser.new]) rfl
      (by simpa using hjoin) (by omega)
      (by simp only [List.length_nil]; omega)
  obtain ⟨remS, unusedS, g1, g2, g3⟩ :=
    feed_sim (kws ++ e :: blanks) kws.length (36 * ((kws.length + 36) / 36))
      hshape hc1 hc2 hc3 hclen
      ((kws ++ e :: blanks).flatten.length +
        (([] : List (List Nat)).map List.length).sum +
        ([] : List (List Nat)).length + 1)
      0 HeaderParser.new ((kws ++ e :: blanks).flatten) []
      (by simp [HeaderParser.new]) rfl
      (by simp) (by omega)
      (by simp only [List.map_nil, List.sum_nil, List.length_nil,
            hstream_len]
          omega)
  have hunusedS : unusedS = [] := by
    cases unusedS with
    | nil => rfl
    | cons a t => simp at g3
  subst hunusedS
  simp only [List.flatten_nil, List.append_nil] at g2
  refine ⟨rem, unused, remS, ?_, ?_, ?_⟩
  · unfold feedChunks
    exact h1
  · unfold feedChunks
    exact g1
  · rw [g2, ← h2]

theorem chunking_invariance_witness :
    ∃ rem unused remS,
      feedChunks HeaderParser.new [] [streamC5.take 100, streamC5.drop 100] =
        some (rem, unused) ∧
      feedChunks HeaderParser.new
        ((([] : List (List Nat)) ++ lineEND80 ::
          List.replicate 35 blankLine80).flatten) [] =
        some (remS, []) ∧
      remS = rem ++ unused.flatten :=
  chunking_invariance [] lineEND80 (List.replicate 35 blankLine80)
    [streamC5.take 100, streamC5.drop 100]
    (by simp)
    (by decide)
    (by
      intro l hl
      rw [List.eq_of_mem_replicate hl]
      exact ⟨none, by decide⟩)
    (by decide)
    (by simp only [List.flatten_cons, List.flatten_nil, List.append_nil]
        exact List.take_append_drop 100 streamC5)

end FitsRs
